import Mathlib

/-!
# goctl-doc-md: type-dependency resolution and struct rendering

A shallow embedding of `doc.go` (functions `isValidRoute`, `buildDoc`,
`associatedTypes`, `buildTypes`, `writeType`, `writerMembers`, `writeProperty`)
together with theorems about it.

Conventions of the embedding
* Go strings are Lean `String`s.  The only byte-level operation of the source,
  `name[0] == '*'` followed by `name[1:]`, inspects an ASCII byte, so on valid
  UTF-8 it coincides with inspecting and dropping the first character.
* A Go `map[string]spec.Type` is an association list with pairwise distinct
  keys; `range` over a map enumerates the entries in an order chosen by the Go
  runtime, which is modelled by a `RangeOrder` (any permutation).
* `associatedTypes` is recursive without a termination argument in the source;
  it is embedded with a fuel argument bounding the recursion depth, and the
  result `none` means that the depth bound was exceeded.
* A Go `error` is modelled by its message; `(string, error)` results are pairs
  `String × Option String`.
-/

namespace GoctlDocMd

/-! ## Data model (go-zero `api/spec`) -/

mutual
/-- Modelled from the spec: the variants of `spec.Type` of go-zero (the package
`api/spec` is a dependency, not part of the source tree): a struct with its
ordered members, a primitive, a map with its value type, an array with its
element type, an opaque interface type, and a pointer wrapping one inner type.
Every variant carries the name as written (`RawName`). -/
inductive SpecType where
  | DefineStruct (RawName : String) (Members : List Member)
  | PrimitiveType (RawName : String)
  | MapType (RawName : String) (Key : String) (Value : SpecType)
  | ArrayType (RawName : String) (Value : SpecType)
  | InterfaceType (RawName : String)
  | PointerType (RawName : String) (Inner : SpecType)
/-- Modelled from the spec: a field of a struct (`spec.Member`): name, type,
raw tag and comment. -/
inductive Member where
  | mk (Name : String) (Tp : SpecType) (Tag : String) (Comment : String)
end

/-- The method `Name()` of every variant returns the raw name. -/
def SpecType.Name : SpecType → String
  | .DefineStruct n _ => n
  | .PrimitiveType n => n
  | .MapType n _ _ => n
  | .ArrayType n _ => n
  | .InterfaceType n => n
  | .PointerType n _ => n

def Member.Name : Member → String
  | .mk n _ _ _ => n

def Member.Tp : Member → SpecType
  | .mk _ t _ _ => t

def Member.Tag : Member → String
  | .mk _ _ t _ => t

def Member.Comment : Member → String
  | .mk _ _ _ c => c

/-- The type assertion `tp.(spec.DefineStruct)` succeeds. -/
def SpecType.isStruct : SpecType → Bool
  | .DefineStruct _ _ => true
  | _ => false

/-- The type assertion `tp.(spec.PrimitiveType)` succeeds. -/
def SpecType.isPrimitive : SpecType → Bool
  | .PrimitiveType _ => true
  | _ => false

/-! ## Go maps -/

/-- A `map[string]spec.Type`: entries with pairwise distinct keys. -/
abbrev GoMap := List (String × SpecType)

/-- The lookup `v, ok := m[k]`. -/
def mapGet (m : GoMap) (k : String) : Option SpecType :=
  match m with
  | [] => none
  | (k', v) :: rest => if k' = k then some v else mapGet rest k

/-- The assignment `m[k] = v`: replaces the value of an existing key, adds a
new entry otherwise. -/
def mapSet (m : GoMap) (k : String) (v : SpecType) : GoMap :=
  match m with
  | [] => [(k, v)]
  | (k', v') :: rest => if k' = k then (k, v) :: rest else (k', v') :: mapSet rest k v

/-- The keys of a map. -/
def mapKeys (m : GoMap) : List String := m.map Prod.fst

/-- An enumeration order of `range` over a map: the Go runtime yields every
entry once, in an unspecified order. -/
structure RangeOrder where
  enum : GoMap → GoMap
  perm : ∀ m, (enum m).Perm m

/-- The order in which the entries were inserted. -/
def insertionOrder : RangeOrder := ⟨fun m => m, fun m => List.Perm.refl m⟩

/-- The reverse of the insertion order. -/
def reverseOrder : RangeOrder := ⟨fun m => m.reverse, fun m => List.reverse_perm m⟩

/-! ## Library helpers used by the source -/

/-- ASCII upper-casing of one character. -/
def upperChar (c : Char) : Char :=
  if 'a' ≤ c ∧ c ≤ 'z' then Char.ofNat (c.toNat - 32) else c

/-- Modelled from the spec: `util.Title` of goctl (a dependency), which
capitalizes a name by the exported-identifier convention: the first character
is upper-cased, the rest is kept.  Modelled for names that begin with an ASCII
character. -/
def Title (s : String) : String :=
  match s.data with
  | [] => s
  | c :: rest => String.mk (upperChar c :: rest)

/-- The separator test of Go's `strings.Title`, on ASCII: alphanumerics and the
underscore do not separate words; other ASCII characters do.  Characters
outside ASCII are taken as letters. -/
def isSeparator (c : Char) : Bool :=
  if c.toNat ≤ 0x7F then
    !(('0' ≤ c ∧ c ≤ '9') ∨ ('a' ≤ c ∧ c ≤ 'z') ∨ ('A' ≤ c ∧ c ≤ 'Z') ∨ c = '_')
  else false

/-- The character mapping of `strings.Title`: `prev` is the previous character
(a space at the start); a character that follows a separator is upper-cased. -/
def stringsTitleAux (prev : Char) : List Char → List Char
  | [] => []
  | c :: rest => (if isSeparator prev then upperChar c else c) :: stringsTitleAux c rest

/-- Modelled from the spec: Go's `strings.Title` (standard library), which
upper-cases the first letter of every word; modelled on ASCII. -/
def stringsTitle (s : String) : String := String.mk (stringsTitleAux ' ' s.data)

/-- Go's `strings.TrimPrefix(s, "//")`: removes one leading `//` if there is
one. -/
def trimPrefixSlashes (s : String) : String :=
  match s.data with
  | '/' :: '/' :: rest => String.mk rest
  | _ => s

/-- The white space that Go's `strings.TrimSpace` removes (`unicode.IsSpace`). -/
def isSpace (c : Char) : Bool :=
  let n := c.toNat
  n = 0x09 ∨ n = 0x0A ∨ n = 0x0B ∨ n = 0x0C ∨ n = 0x0D ∨ n = 0x20 ∨ n = 0x85 ∨ n = 0xA0 ∨
  n = 0x1680 ∨ (0x2000 ≤ n ∧ n ≤ 0x200A) ∨ n = 0x2028 ∨ n = 0x2029 ∨ n = 0x202F ∨
  n = 0x205F ∨ n = 0x3000

/-- Go's `strings.TrimSpace`. -/
def trimSpace (s : String) : String :=
  String.mk ((s.data.dropWhile isSpace).reverse.dropWhile isSpace).reverse

/-- The method `GetComment()` of `spec.Member`: the comment with surrounding
white space removed. -/
def Member.GetComment (m : Member) : String := trimSpace m.Comment

/-- The helper `apiutil.WriteIndent`: writes `indent` tabs. -/
def WriteIndent (writer : String) (indent : Nat) : String :=
  match indent with
  | 0 => writer
  | n + 1 => WriteIndent (writer ++ "\t") n

/-- The helper `apiutil.WrapErr`: prefixes the message of an error. -/
def WrapErr (err : String) (message : String) : String := message ++ ", " ++ err

/-! ## The source: `doc.go` -/

/-- `isValidRoute` (doc.go 103-108): the route type is present and has a
non-empty name. -/
def isValidRoute (route : Option SpecType) : Bool :=
  match route with
  | none => false
  | some tp => if tp.Name.length = 0 then false else true

/-- The name under which `associatedTypes` looks a type up in the registry
(doc.go 133-138): the name with one leading `*` removed. -/
def searchName (name : String) : String :=
  match name.data with
  | c :: rest => if c = '*' then String.mk rest else name
  | [] => name

/-- The body of the loop over the members of a struct in `associatedTypes`
(doc.go 154-168); `recur` is the recursive call of `associatedTypes` with the
registry fixed. -/
def visitMember (recur : SpecType → GoMap → Option GoMap) (tps : GoMap) (item : Member) :
    Option GoMap :=
  match item.Tp with
  | .DefineStruct _ _ => recur item.Tp tps
  | .MapType _ _ value => if value.isPrimitive then some tps else recur value tps
  | .ArrayType _ value => if value.isPrimitive then some tps else recur value tps
  | .PointerType _ _ => recur item.Tp tps
  | _ => some tps

/-- The insertion step of `associatedTypes` (doc.go 140-144): the registry's
definition `saved` is entered under `name` when the registry has one and `name`
is not yet a key of `tps`. -/
def addSaved (tps : GoMap) (name : String) (saved : Option SpecType) : GoMap :=
  let hasAdded := (mapGet tps name).isSome
  match saved with
  | some savedType => if !hasAdded then mapSet tps name savedType else tps
  | none => tps

/-- `associatedTypes` (doc.go 128-171).  The map `tps` is threaded through the
calls; the first argument bounds the depth of the recursion. -/
def associatedTypes : Nat → SpecType → GoMap → GoMap → Option GoMap
  | 0, _, _, _ => none
  | fuel + 1, tp, tps, allTypes =>
    let name := tp.Name
    let saved := mapGet allTypes (searchName name)
    let tps1 := addSaved tps name saved
    match saved with
    | some (.PointerType _ inner) => associatedTypes fuel inner tps1 allTypes
    | some (.DefineStruct _ members) =>
      members.foldlM (visitMember (fun t m => associatedTypes fuel t m allTypes)) tps1
    | _ => some tps1

/-- The part of `buildDoc` that builds the resolved set (doc.go 115-119): the
root is entered under its own name, and `associatedTypes` runs only for a
struct root. -/
def resolvedSet (fuel : Nat) (route : SpecType) (allTypes : GoMap) : Option GoMap :=
  let tps := mapSet [] route.Name route
  if route.isStruct then associatedTypes fuel route tps allTypes else some tps

/-- `writeProperty` (doc.go 216-234).  The writer is the text written so far;
writing to a `strings.Builder` never fails, so the returned error is absent. -/
def writeProperty (writer : String) (name tag comment : String) (tp : SpecType) (indent : Nat) :
    String × Option String :=
  let w := WriteIndent writer indent
  if comment.length > 0 then
    let comment1 := trimPrefixSlashes comment
    let comment2 := "//" ++ comment1
    let w1 := if name.length > 0 then w ++ (stringsTitle name ++ " ") else w
    (w1 ++ (tp.Name ++ " " ++ tag ++ " " ++ comment2 ++ "\n"), none)
  else
    let w1 := if name.length > 0 then w ++ (stringsTitle name ++ " ") else w
    (w1 ++ (tp.Name ++ " " ++ tag ++ "\n"), none)

/-- The loop of `writerMembers` over the members (doc.go 207-211), which stops
at the first error. -/
def writeMembersLoop (all : GoMap) : List Member → String → String × Option String
  | [], writer => (writer, none)
  | member :: rest, writer =>
    match writeProperty writer member.Name member.Tag member.GetComment member.Tp 1 with
    | (w, some err) => (w, some err)
    | (w, none) => writeMembersLoop all rest w

/-- `writerMembers` (doc.go 201-214). -/
def writerMembers (writer : String) (tp : SpecType) (all : GoMap) : String × Option String :=
  match tp with
  | .DefineStruct _ members => writeMembersLoop all members writer
  | _ => (writer, some ("unspport struct type: " ++ tp.Name))

/-- `writeType` (doc.go 192-199): the header is written before the members are
attempted. -/
def writeType (writer : String) (tp : SpecType) (all : GoMap) : String × Option String :=
  let w := writer ++ ("type " ++ Title tp.Name ++ " struct \x7b\n")
  match writerMembers w tp all with
  | (w1, some err) => (w1, some err)
  | (w1, none) => (w1 ++ "\x7d", none)

/-- The loop of `buildTypes` (doc.go 177-187) over the entries in the order of
enumeration, with the builder and the flag `first` as state. -/
def buildTypesLoop (all : GoMap) : List (String × SpecType) → String → Bool → String × Option String
  | [], builder, _ => (builder, none)
  | (_, tp) :: rest, builder, first =>
    let b := if first then builder else builder ++ "\n\n"
    match writeType b tp all with
    | (_, some err) => ("", some (WrapErr err ("Type " ++ tp.Name ++ " generate error")))
    | (b1, none) => buildTypesLoop all rest b1 false

/-- `buildTypes` (doc.go 174-190); `order` is the enumeration that `range`
performs on the map `types`. -/
def buildTypes (order : RangeOrder) (types : GoMap) (all : GoMap) : String × Option String :=
  buildTypesLoop all (order.enum types) "" true

/-- `buildDoc` (doc.go 110-126).  The result is `none` when `associatedTypes`
exceeds the recursion depth `fuel`. -/
def buildDoc (order : RangeOrder) (fuel : Nat) (route : Option SpecType) (allTypes : GoMap) :
    Option (String × Option String) :=
  if !isValidRoute route then some ("", none)
  else
    match route with
    | none => some ("", none)
    | some tp =>
      match resolvedSet fuel tp allTypes with
      | none => none
      | some tps =>
        match buildTypes order tps allTypes with
        | (_, some err) => some ("", some err)
        | (value, none) => some ("\n\n```golang\n" ++ value ++ "\n```\n", none)


/-- The message of the error that `buildTypes` returns for a type that is not a
struct. -/
def unsupportedMessage (tp : SpecType) : String :=
  WrapErr ("unspport struct type: " ++ tp.Name) ("Type " ++ tp.Name ++ " generate error")

/-- A field type that `associatedTypes` does not descend into: a primitive, a
map with a primitive value or an array with a primitive element. -/
def prunedField (t : SpecType) : Bool :=
  match t with
  | .PrimitiveType _ => true
  | .MapType _ _ value => value.isPrimitive
  | .ArrayType _ value => value.isPrimitive
  | _ => false

/-- The resolved set `tps2` extends `tps1` over the registry `all`: every entry
of `tps1` is an entry of `tps2`, and every entry of `tps2` is an entry of `tps1`
or binds its key to the registry's definition under the key with one leading
`*` removed. -/
def Extends (all tps1 tps2 : GoMap) : Prop :=
  (∀ k v, mapGet tps1 k = some v → mapGet tps2 k = some v) ∧
  (∀ k v, mapGet tps2 k = some v → mapGet tps1 k = some v ∨ mapGet all (searchName k) = some v)

/-- The blocks that `writeType` writes for the entries `l`, each on an empty
builder, in the order of `l`. -/
def renderedBlocks (all : GoMap) (l : List (String × SpecType)) : List String :=
  l.map (fun e => (writeType "" e.2 all).1)

/-! ## Example inputs -/

/-- The struct `User{ID int; Name string}` with its tags. -/
def exUser : SpecType :=
  .DefineStruct "User"
    [.mk "ID" (.PrimitiveType "int") "`json:\"id\"`" "",
     .mk "Name" (.PrimitiveType "string") "`json:\"name\"`" ""]

/-- A reference to the struct `User` as the parser leaves it in a field type. -/
def userRef : SpecType := .DefineStruct "User" []

/-- The array type `[]User`. -/
def userArray : SpecType := .ArrayType "[]User" userRef

/-- The struct `Wrapper{Items []User}`. -/
def exWrapper : SpecType := .DefineStruct "Wrapper" [.mk "Items" userArray "" ""]

/-- A registry declaring `User` and `Wrapper`. -/
def exampleRegistry : GoMap := [("User", exUser), ("Wrapper", exWrapper)]

/-- The struct `Groups{ByName map[string][]User}`: a map whose values are arrays
of a declared struct. -/
def exGroups : SpecType :=
  .DefineStruct "Groups" [.mk "ByName" (.MapType "map[string][]User" "string" userArray) "" ""]

/-- A registry declaring `User` and `Groups`. -/
def groupsRegistry : GoMap := [("User", exUser), ("Groups", exGroups)]

/-- The struct `Node{Next *Node}`: a linked-list node. -/
def exNode : SpecType :=
  .DefineStruct "Node" [.mk "Next" (.PointerType "*Node" (.DefineStruct "Node" [])) "" ""]

/-- A registry declaring `Node`. -/
def nodeRegistry : GoMap := [("Node", exNode)]

/-- The struct `Pair{A User; B *User}`. -/
def exPair : SpecType :=
  .DefineStruct "Pair"
    [.mk "A" userRef "" "", .mk "B" (.PointerType "*User" userRef) "" ""]

/-- A registry declaring `User` and `Pair`. -/
def pairRegistry : GoMap := [("User", exUser), ("Pair", exPair)]

/-- The struct `Limits{Max int; Quota map[string]int; Ports []int}`. -/
def exLimits : SpecType :=
  .DefineStruct "Limits"
    [.mk "Max" (.PrimitiveType "int") "" "",
     .mk "Quota" (.MapType "map[string]int" "string" (.PrimitiveType "int")) "" "",
     .mk "Ports" (.ArrayType "[]int" (.PrimitiveType "int")) "" ""]

/-- A registry declaring `Limits`. -/
def limitsRegistry : GoMap := [("Limits", exLimits)]

/-- The struct `user{ID int}`, declared under a lower-case name. -/
def exLowerUser : SpecType := .DefineStruct "user" [.mk "ID" (.PrimitiveType "int") "" ""]

/-- The struct `Account{Owner User; Login user}`. -/
def exAccount : SpecType :=
  .DefineStruct "Account"
    [.mk "Owner" userRef "" "", .mk "Login" (.DefineStruct "user" []) "" ""]

/-- A registry declaring `User`, `user` and `Account`. -/
def accountRegistry : GoMap := [("User", exUser), ("user", exLowerUser), ("Account", exAccount)]

/-! ## The reference relation between declared types -/

/-- The type `t` mentions the struct name `n` through any combination of
pointers, map values and array elements. -/
inductive Mentions : SpecType → String → Prop where
  | struct (n : String) (ms : List Member) : Mentions (.DefineStruct n ms) n
  | pointer (r : String) (t : SpecType) (n : String) : Mentions t n → Mentions (.PointerType r t) n
  | map (r k : String) (t : SpecType) (n : String) : Mentions t n → Mentions (.MapType r k t) n
  | array (r : String) (t : SpecType) (n : String) : Mentions t n → Mentions (.ArrayType r t) n

/-- The struct declared under `a` in the registry has a field whose type
mentions the name `b`. -/
def References (all : GoMap) (a b : String) : Prop :=
  ∃ n ms m, mapGet all a = some (.DefineStruct n ms) ∧ m ∈ ms ∧ Mentions m.Tp b

/-- The name `b` is transitively referenced from the name `a`. -/
def Reachable (all : GoMap) (a b : String) : Prop := Relation.ReflTransGen (References all) a b

/-! ## Definitions for the claims on field lines and on the join -/

/-- The comment as `writeProperty` renders it (doc.go 220-221): one leading `//`
is removed if there is one, then `//` is put in front. -/
def normalizedComment (comment : String) : String := "//" ++ trimPrefixSlashes comment

/-- The characters that remain when every leading `//` marker is removed. -/
def stripAllMarkersAux : List Char → List Char
  | '/' :: '/' :: rest => stripAllMarkersAux rest
  | l => l

/-- The normalization in the words of the specification: all leading `//`
markers are stripped, then exactly one is put in front. -/
def specSingleMarker (comment : String) : String :=
  "//" ++ String.mk (stripAllMarkersAux comment.data)

/-- The line of a field in the words of the specification: a tab, the
capitalized field name and a space if the name is not empty, the name of the
type, a space, the tag, a space and the normalized comment if the comment is
not empty, and a newline. -/
def specFieldLine (name typeName tag comment : String) : String :=
  "\t" ++ (if name = "" then "" else stringsTitle name ++ " ") ++ typeName ++ " " ++ tag ++
    (if comment = "" then "" else " " ++ normalizedComment comment) ++ "\n"

/-- The line of a member: the field line of its name, type name, tag and
trimmed comment. -/
def memberLine (m : Member) : String := specFieldLine m.Name m.Tp.Name m.Tag m.GetComment

/-- The join of blocks in the words of the specification: consecutive blocks
are separated by a blank line, with nothing before the first and nothing after
the last. -/
def joinBlankLine : List String → String
  | [] => ""
  | [b] => b
  | b :: c :: rest => b ++ "\n\n" ++ joinBlankLine (c :: rest)

/-- The concatenation of lines, in order. -/
def concatLines : List String → String
  | [] => ""
  | a :: rest => a ++ concatLines rest

/-- The members of a struct type (none for the other variants). -/
def SpecType.Members : SpecType → List Member
  | .DefineStruct _ members => members
  | _ => []

/-- The block of a struct type in the words of the specification: the header
with the capitalized name, the lines of the fields in declaration order, and
the closing brace. -/
def specBlock (tp : SpecType) : String :=
  "type " ++ Title tp.Name ++ " struct \x7b\n" ++ concatLines (tp.Members.map memberLine) ++ "\x7d"

/-! ## Definitions for the claims on termination -/

/-- The type on which the loop body of `associatedTypes` calls
`associatedTypes` for a member (doc.go 154-168), if it does. -/
def memberTarget (item : Member) : Option SpecType :=
  match item.Tp with
  | .DefineStruct _ _ => some item.Tp
  | .MapType _ _ value => if value.isPrimitive then none else some value
  | .ArrayType _ value => if value.isPrimitive then none else some value
  | .PointerType _ _ => some item.Tp
  | _ => none

/-- The types on which `associatedTypes` calls itself when the registry's
definition is `d` (doc.go 146-170), in the order of the calls. -/
def defTargets (d : SpecType) : List SpecType :=
  match d with
  | .PointerType _ inner => [inner]
  | .DefineStruct _ members => members.filterMap memberTarget
  | _ => []

/-- The types on which a call of `associatedTypes` on a type named `a` calls
itself. -/
def callTargets (all : GoMap) (a : String) : List SpecType :=
  match mapGet all (searchName a) with
  | some d => defTargets d
  | none => []

/-- The by-name reference relation that `associatedTypes` follows: a call on a
type named `a` calls `associatedTypes` on a type named `b`. -/
def Follows (all : GoMap) (a b : String) : Prop := ∃ t ∈ callTargets all a, t.Name = b

/-- The names of all types on which some call of `associatedTypes` can call
itself, whatever the name it is called on. -/
def targetNames (all : GoMap) : List String :=
  all.flatMap (fun e => (defTargets e.2).map SpecType.Name)

/-- No cycle of the reference relation is reachable from the name `a`. -/
def AcyclicFrom (all : GoMap) (a : String) : Prop :=
  ∀ b, Relation.ReflTransGen (Follows all) a b → ¬ Relation.TransGen (Follows all) b b

/-- Every call of `associatedTypes` on a type named `a` returns within the
recursion bound `fuel`. -/
def TerminatesWithin (all : GoMap) (fuel : Nat) (a : String) : Prop :=
  ∀ tp : SpecType, tp.Name = a → ∀ tps, ∃ res, associatedTypes fuel tp tps all = some res

/-! ## Rendering: errors -/

theorem length_eq_zero_iff (s : String) : s.length = 0 ↔ s = "" := by
  cases s with
  | mk data =>
    cases data with
    | nil => exact ⟨fun _ => rfl, fun _ => rfl⟩
    | cons c cs =>
      constructor
      · intro h
        simp [String.length] at h
      · intro h
        exact absurd (congrArg String.data h) (by simp)

theorem isValidRoute_some (tp : SpecType) : isValidRoute (some tp) = !decide (tp.Name = "") := by
  unfold isValidRoute
  by_cases h : tp.Name = ""
  · simp [h]
  · have h1 : tp.Name.length ≠ 0 := fun h0 => h ((length_eq_zero_iff _).mp h0)
    simp [h, h1]

theorem writeProperty_snd (w name tag comment : String) (tp : SpecType) (indent : Nat) :
    (writeProperty w name tag comment tp indent).2 = none := by
  unfold writeProperty
  split <;> rfl

theorem writeMembersLoop_snd (all : GoMap) (members : List Member) :
    ∀ w, (writeMembersLoop all members w).2 = none := by
  induction members with
  | nil => intro w; rfl
  | cons m rest ih =>
    intro w
    have h := writeProperty_snd w m.Name m.Tag m.GetComment m.Tp 1
    unfold writeMembersLoop
    split
    · rename_i w1 err heq
      rw [heq] at h
      cases h
    · exact ih _

theorem writerMembers_struct (w : String) (tp : SpecType) (all : GoMap)
    (h : tp.isStruct = true) : (writerMembers w tp all).2 = none := by
  cases tp <;> simp [SpecType.isStruct] at h
  exact writeMembersLoop_snd all _ w

theorem writerMembers_nonstruct (w : String) (tp : SpecType) (all : GoMap)
    (h : tp.isStruct = false) :
    writerMembers w tp all = (w, some ("unspport struct type: " ++ tp.Name)) := by
  cases tp <;> simp [SpecType.isStruct] at h <;> rfl

theorem writeType_struct (w : String) (tp : SpecType) (all : GoMap)
    (h : tp.isStruct = true) : (writeType w tp all).2 = none := by
  have h1 := writerMembers_struct (w ++ ("type " ++ Title tp.Name ++ " struct \x7b\n")) tp all h
  unfold writeType
  dsimp only
  split
  · rename_i w1 err heq
    rw [heq] at h1
    cases h1
  · rfl

theorem writeType_nonstruct (w : String) (tp : SpecType) (all : GoMap)
    (h : tp.isStruct = false) :
    writeType w tp all =
      (w ++ ("type " ++ Title tp.Name ++ " struct \x7b\n"),
        some ("unspport struct type: " ++ tp.Name)) := by
  unfold writeType
  simp only [writerMembers_nonstruct _ tp all h]

theorem buildTypesLoop_allStruct (all : GoMap) (l : List (String × SpecType))
    (h : ∀ e ∈ l, e.2.isStruct = true) :
    ∀ b first, (buildTypesLoop all l b first).2 = none := by
  induction l with
  | nil => intro b first; rfl
  | cons e rest ih =>
    intro b first
    obtain ⟨k, tp⟩ := e
    have hs : tp.isStruct = true := h (k, tp) (List.mem_cons_self _ _)
    have h1 := writeType_struct (if first then b else b ++ "\n\n") tp all hs
    unfold buildTypesLoop
    simp only
    split
    · rename_i w1 err heq
      rw [heq] at h1
      cases h1
    · exact ih (fun e he => h e (List.mem_cons_of_mem _ he)) _ _

theorem buildTypesLoop_firstNonStruct (all : GoMap) (pre : List (String × SpecType))
    (e : String × SpecType) (post : List (String × SpecType))
    (hpre : ∀ x ∈ pre, x.2.isStruct = true) (he : e.2.isStruct = false) :
    ∀ b first, buildTypesLoop all (pre ++ e :: post) b first = ("", some (unsupportedMessage e.2)) := by
  induction pre with
  | nil =>
    intro b first
    obtain ⟨k, tp⟩ := e
    simp only [List.nil_append, buildTypesLoop, writeType_nonstruct _ tp all he]
    rfl
  | cons x rest ih =>
    intro b first
    obtain ⟨k, tp⟩ := x
    have hs : tp.isStruct = true := hpre (k, tp) (List.mem_cons_self _ _)
    have h1 := writeType_struct (if first then b else b ++ "\n\n") tp all hs
    simp only [List.cons_append, buildTypesLoop]
    split
    · rename_i w1 err heq
      rw [heq] at h1
      cases h1
    · exact ih (fun y hy => hpre y (List.mem_cons_of_mem _ hy)) _ _

/-- A list with an entry that is not a struct splits at the first such entry. -/
theorem exists_first_nonstruct (l : List (String × SpecType))
    (h : ∃ e ∈ l, e.2.isStruct = false) :
    ∃ pre e post, l = pre ++ e :: post ∧ (∀ x ∈ pre, x.2.isStruct = true) ∧
      e.2.isStruct = false := by
  induction l with
  | nil => obtain ⟨e, he, _⟩ := h; cases he
  | cons x rest ih =>
    by_cases hx : x.2.isStruct = true
    · have h2 : ∃ e ∈ rest, e.2.isStruct = false := by
        obtain ⟨e, he, hns⟩ := h
        rcases List.mem_cons.mp he with rfl | hr
        · rw [hx] at hns; cases hns
        · exact ⟨e, hr, hns⟩
      obtain ⟨pre, e, post, hl, hpre, he⟩ := ih h2
      refine ⟨x :: pre, e, post, by rw [hl]; rfl, ?_, he⟩
      intro y hy
      rcases List.mem_cons.mp hy with rfl | hr
      · exact hx
      · exact hpre y hr
    · refine ⟨[], x, rest, rfl, ?_, by simpa using hx⟩
      intro y hy
      cases hy

theorem buildTypesLoop_error_iff (all : GoMap) (l : List (String × SpecType)) (b : String)
    (first : Bool) :
    (buildTypesLoop all l b first).2.isSome = true ↔ ∃ e ∈ l, e.2.isStruct = false := by
  constructor
  · intro h
    by_contra hne
    have hall : ∀ e ∈ l, e.2.isStruct = true := by
      intro e he
      by_contra hs
      exact hne ⟨e, he, by simpa using hs⟩
    rw [buildTypesLoop_allStruct all l hall b first] at h
    cases h
  · intro h
    obtain ⟨pre, e, post, hl, hpre, he⟩ := exists_first_nonstruct l h
    rw [hl, buildTypesLoop_firstNonStruct all pre e post hpre he b first]
    rfl

theorem buildTypesLoop_error_text (all : GoMap) (l : List (String × SpecType)) (b : String)
    (first : Bool) (h : (buildTypesLoop all l b first).2.isSome = true) :
    (buildTypesLoop all l b first).1 = "" := by
  obtain ⟨pre, e, post, hl, hpre, he⟩ :=
    exists_first_nonstruct l ((buildTypesLoop_error_iff all l b first).mp h)
  rw [hl, buildTypesLoop_firstNonStruct all pre e post hpre he b first]

theorem mem_enum_iff (order : RangeOrder) (m : GoMap) (e : String × SpecType) :
    e ∈ order.enum m ↔ e ∈ m := (order.perm m).mem_iff

theorem enum_singleton (order : RangeOrder) (e : String × SpecType) : order.enum [e] = [e] :=
  List.perm_singleton.mp (order.perm [e])

theorem resolvedSet_nonstruct (fuel : Nat) (tp : SpecType) (allTypes : GoMap)
    (h : tp.isStruct = false) : resolvedSet fuel tp allTypes = some [(tp.Name, tp)] := by
  simp [resolvedSet, h, mapSet]

/-- What `buildDoc` returns once the resolved set is known. -/
theorem buildDoc_of_resolvedSet (order : RangeOrder) (fuel : Nat) (tp : SpecType)
    (allTypes tps : GoMap) (hname : tp.Name ≠ "")
    (hres : resolvedSet fuel tp allTypes = some tps) :
    buildDoc order fuel (some tp) allTypes =
      match buildTypes order tps allTypes with
      | (_, some err) => some ("", some err)
      | (value, none) => some ("\n\n```golang\n" ++ value ++ "\n```\n", none) := by
  simp [buildDoc, isValidRoute_some, hname, hres]


theorem unsupportedMessage_eq (tp : SpecType) :
    unsupportedMessage tp =
      "Type " ++ tp.Name ++ " generate error, unspport struct type: " ++ tp.Name := by
  apply String.ext
  simp [unsupportedMessage, WrapErr]

theorem buildDoc_of_error (order : RangeOrder) (fuel : Nat) (tp : SpecType)
    (allTypes tps : GoMap) (err : String) (hname : tp.Name ≠ "")
    (hres : resolvedSet fuel tp allTypes = some tps)
    (hb : buildTypes order tps allTypes = ("", some err)) :
    buildDoc order fuel (some tp) allTypes = some ("", some err) := by
  rw [buildDoc_of_resolvedSet order fuel tp allTypes tps hname hres, hb]

/-! ## Claims on the empty root and on errors -/

theorem buildDoc_empty_name (order : RangeOrder) (fuel : Nat) (allTypes : GoMap)
    (tp : SpecType) (h : tp.Name = "") :
    buildDoc order fuel (some tp) allTypes = some ("", none) := by
  simp [buildDoc, isValidRoute_some, h]

theorem buildTypes_error_iff (order : RangeOrder) (types all : GoMap) :
    (buildTypes order types all).2.isSome = true ↔ ∃ e ∈ types, e.2.isStruct = false := by
  unfold buildTypes
  rw [buildTypesLoop_error_iff]
  constructor
  · rintro ⟨e, he, hns⟩
    exact ⟨e, (mem_enum_iff order types e).mp he, hns⟩
  · rintro ⟨e, he, hns⟩
    exact ⟨e, (mem_enum_iff order types e).mpr he, hns⟩

theorem buildTypes_error_text (order : RangeOrder) (types all : GoMap)
    (h : (buildTypes order types all).2.isSome = true) : (buildTypes order types all).1 = "" :=
  buildTypesLoop_error_text all _ _ _ h

/-- C7 (empty root): for every registry, `buildDoc` called with an absent root
type, or with a root type whose name is empty, returns the empty string and no
error (whatever the recursion bound and the enumeration order). -/
theorem buildDoc_empty_root (order : RangeOrder) (fuel : Nat) (allTypes : GoMap) :
    buildDoc order fuel none allTypes = some ("", none) ∧
    ∀ tp : SpecType, tp.Name = "" → buildDoc order fuel (some tp) allTypes = some ("", none) :=
  ⟨rfl, fun tp h => buildDoc_empty_name order fuel allTypes tp h⟩

theorem buildDoc_empty_root_witness :
    buildDoc reverseOrder 0 none exampleRegistry = some ("", none) ∧
    buildDoc reverseOrder 0 (some (SpecType.DefineStruct "" [])) exampleRegistry =
      some ("", none) :=
  ⟨(buildDoc_empty_root reverseOrder 0 exampleRegistry).1,
   (buildDoc_empty_root reverseOrder 0 exampleRegistry).2 (SpecType.DefineStruct "" []) rfl⟩

/-- C8, as stated, fails: for the array type `[]User` as root (non-empty name,
not a struct) `buildDoc` does not return a body without error. -/
theorem buildDoc_nonstruct_root_counterexample :
    ¬ ∃ body, buildDoc insertionOrder 3 (some userArray) exampleRegistry = some (body, none) := by
  intro h
  obtain ⟨body, hb⟩ := h
  have h2 : buildDoc insertionOrder 3 (some userArray) exampleRegistry =
      some ("", some "Type []User generate error, unspport struct type: []User") := by decide
  rw [h2] at hb
  cases hb

/-- C8 amended: for every registry and every root type with a non-empty name
that is not a struct, `buildDoc` returns the empty string together with the
error `Type <name> generate error, unspport struct type: <name>`. -/
theorem buildDoc_nonstruct_root (order : RangeOrder) (fuel : Nat) (allTypes : GoMap)
    (tp : SpecType) (hname : tp.Name ≠ "") (hns : tp.isStruct = false) :
    buildDoc order fuel (some tp) allTypes =
      some ("", some ("Type " ++ tp.Name ++ " generate error, unspport struct type: "
        ++ tp.Name)) := by
  rw [← unsupportedMessage_eq]
  apply buildDoc_of_error order fuel tp allTypes _ _ hname
    (resolvedSet_nonstruct fuel tp allTypes hns)
  unfold buildTypes
  rw [enum_singleton]
  exact buildTypesLoop_firstNonStruct allTypes [] (tp.Name, tp) [] (fun x hx => by cases hx) hns _ _

theorem buildDoc_nonstruct_root_witness :
    buildDoc reverseOrder 0 (some userArray) exampleRegistry =
      some ("", some ("Type " ++ userArray.Name ++ " generate error, unspport struct type: "
        ++ userArray.Name)) :=
  buildDoc_nonstruct_root reverseOrder 0 exampleRegistry userArray (by decide) rfl

/-- C9 (unsupported type is reported by name): whenever the entries that
`buildTypes` enumerates contain a type that is not a struct, `buildTypes` fails
with the message `Type <name> generate error, unspport struct type: <name>`,
where `<name>` is the name of the first enumerated entry that is not a struct
(so the message contains that name), and `buildDoc` fails with the same message
when this is its resolved set. -/
theorem unsupported_reported_by_name (order : RangeOrder) (types all : GoMap)
    (h : ∃ e ∈ types, e.2.isStruct = false) :
    ∃ pre e post, order.enum types = pre ++ e :: post ∧ (∀ x ∈ pre, x.2.isStruct = true) ∧
      e ∈ types ∧ e.2.isStruct = false ∧
      e.2.Name.data <:+: ("Type " ++ e.2.Name ++ " generate error, unspport struct type: "
        ++ e.2.Name).data ∧
      buildTypes order types all =
        ("", some ("Type " ++ e.2.Name ++ " generate error, unspport struct type: "
          ++ e.2.Name)) ∧
      ∀ fuel route, route.Name ≠ "" → resolvedSet fuel route all = some types →
        buildDoc order fuel (some route) all =
          some ("", some ("Type " ++ e.2.Name ++ " generate error, unspport struct type: "
            ++ e.2.Name)) := by
  have h1 : ∃ e ∈ order.enum types, e.2.isStruct = false := by
    obtain ⟨e, he, hns⟩ := h
    exact ⟨e, (mem_enum_iff order types e).mpr he, hns⟩
  obtain ⟨pre, e, post, hl, hpre, he⟩ := exists_first_nonstruct _ h1
  have hmem : e ∈ types := (mem_enum_iff order types e).mp (by rw [hl]; simp)
  have hb : buildTypes order types all = ("", some (unsupportedMessage e.2)) := by
    unfold buildTypes
    rw [hl]
    exact buildTypesLoop_firstNonStruct all pre e post hpre he _ _
  refine ⟨pre, e, post, hl, hpre, hmem, he, ?_, ?_, ?_⟩
  · refine ⟨"Type ".data, (" generate error, unspport struct type: " ++ e.2.Name).data, ?_⟩
    simp
  · rw [← unsupportedMessage_eq]
    exact hb
  · intro fuel route hname hres
    rw [← unsupportedMessage_eq]
    exact buildDoc_of_error order fuel route all types _ hname hres hb

theorem unsupported_reported_by_name_witness :
    ∃ pre e post, insertionOrder.enum [("User", exUser), ("[]User", userArray)] = pre ++ e :: post ∧
      (∀ x ∈ pre, x.2.isStruct = true) ∧
      e ∈ [("User", exUser), ("[]User", userArray)] ∧ e.2.isStruct = false ∧
      e.2.Name.data <:+: ("Type " ++ e.2.Name ++ " generate error, unspport struct type: "
        ++ e.2.Name).data ∧
      buildTypes insertionOrder [("User", exUser), ("[]User", userArray)] exampleRegistry =
        ("", some ("Type " ++ e.2.Name ++ " generate error, unspport struct type: "
          ++ e.2.Name)) ∧
      ∀ fuel route, route.Name ≠ "" →
        resolvedSet fuel route exampleRegistry = some [("User", exUser), ("[]User", userArray)] →
        buildDoc insertionOrder fuel (some route) exampleRegistry =
          some ("", some ("Type " ++ e.2.Name ++ " generate error, unspport struct type: "
            ++ e.2.Name)) :=
  unsupported_reported_by_name insertionOrder [("User", exUser), ("[]User", userArray)]
    exampleRegistry ⟨("[]User", userArray), by simp, rfl⟩

/-- C10 (fail iff non-struct, no partial output): for every resolved set and
every enumeration order, `buildTypes` returns an error if and only if some
entry is not a struct; whenever it returns an error the returned text is empty;
whenever `buildDoc` returns an error its text is empty; and `writeType` on a
type that is not a struct has already written the header line to the builder
when it fails. -/
theorem buildTypes_fails_iff_nonstruct (order : RangeOrder) (types all : GoMap) :
    ((buildTypes order types all).2.isSome = true ↔ ∃ e ∈ types, e.2.isStruct = false) ∧
    ((buildTypes order types all).2.isSome = true → (buildTypes order types all).1 = "") ∧
    (∀ fuel route text err,
      buildDoc order fuel route all = some (text, some err) → text = "") ∧
    (∀ w tp, tp.isStruct = false →
      writeType w tp all =
        (w ++ ("type " ++ Title tp.Name ++ " struct \x7b\n"),
          some ("unspport struct type: " ++ tp.Name))) := by
  refine ⟨buildTypes_error_iff order types all, buildTypes_error_text order types all, ?_, ?_⟩
  · intro fuel route text err h
    unfold buildDoc at h
    split at h
    · cases h
    · split at h
      · cases h
      · split at h
        · cases h
        · split at h
          · injection h with h
            injection h with h1 h2
            exact h1.symm
          · cases h
  · intro w tp hns
    exact writeType_nonstruct w tp all hns

theorem buildTypes_fails_iff_nonstruct_witness :
    (buildTypes insertionOrder [("User", exUser), ("[]User", userArray)] exampleRegistry).2.isSome
      = true ∧
    (buildTypes insertionOrder [("User", exUser), ("[]User", userArray)] exampleRegistry).1 = "" ∧
    (buildDoc insertionOrder 0 (some userArray) exampleRegistry).map Prod.fst = some "" ∧
    writeType "" userArray exampleRegistry =
      ("" ++ ("type " ++ Title userArray.Name ++ " struct \x7b\n"),
        some ("unspport struct type: " ++ userArray.Name)) :=
  have h := buildTypes_fails_iff_nonstruct insertionOrder [("User", exUser), ("[]User", userArray)]
    exampleRegistry
  have h1 := h.1.mpr ⟨("[]User", userArray), by simp, rfl⟩
  have h3 : "" = "" := h.2.2.1 0 (some userArray) ""
    "Type []User generate error, unspport struct type: []User" rfl
  ⟨h1, h.2.1 h1, congrArg (fun t => some t) h3, h.2.2.2 "" userArray rfl⟩

/-! ## Resolution: invariants of `associatedTypes` -/

theorem mapGet_mapSet (m : GoMap) (k : String) (v : SpecType) (k' : String) :
    mapGet (mapSet m k v) k' = if k = k' then some v else mapGet m k' := by
  induction m with
  | nil => simp [mapSet, mapGet]
  | cons e rest ih =>
    obtain ⟨k0, v0⟩ := e
    by_cases h0 : k0 = k
    · subst h0
      by_cases h1 : k0 = k' <;> simp [mapSet, mapGet, h1]
    · by_cases h1 : k0 = k'
      · have h2 : k ≠ k' := fun h => h0 (h1.trans h.symm)
        subst h1
        simp [mapSet, mapGet, h0, h2]
      · simp [mapSet, mapGet, h0, h1, ih]

theorem associatedTypes_zero (tp : SpecType) (tps all : GoMap) :
    associatedTypes 0 tp tps all = none := rfl

theorem associatedTypes_pointer (fuel : Nat) (tp : SpecType) (tps all : GoMap) (n : String)
    (inner : SpecType) (h : mapGet all (searchName tp.Name) = some (.PointerType n inner)) :
    associatedTypes (fuel + 1) tp tps all =
      associatedTypes fuel inner (addSaved tps tp.Name (some (.PointerType n inner))) all := by
  simp only [associatedTypes, h]

theorem associatedTypes_struct (fuel : Nat) (tp : SpecType) (tps all : GoMap) (n : String)
    (members : List Member)
    (h : mapGet all (searchName tp.Name) = some (.DefineStruct n members)) :
    associatedTypes (fuel + 1) tp tps all =
      members.foldlM (visitMember (fun t m => associatedTypes fuel t m all))
        (addSaved tps tp.Name (some (.DefineStruct n members))) := by
  simp only [associatedTypes, h]

theorem associatedTypes_other (fuel : Nat) (tp : SpecType) (tps all : GoMap)
    (h1 : ∀ n inner, mapGet all (searchName tp.Name) ≠ some (.PointerType n inner))
    (h2 : ∀ n members, mapGet all (searchName tp.Name) ≠ some (.DefineStruct n members)) :
    associatedTypes (fuel + 1) tp tps all =
      some (addSaved tps tp.Name (mapGet all (searchName tp.Name))) := by
  simp only [associatedTypes]

theorem Extends.refl (all tps : GoMap) : Extends all tps tps :=
  ⟨fun _ _ h => h, fun _ _ h => Or.inl h⟩

theorem Extends.trans {all t1 t2 t3 : GoMap} (h12 : Extends all t1 t2) (h23 : Extends all t2 t3) :
    Extends all t1 t3 := by
  refine ⟨fun k v h => h23.1 k v (h12.1 k v h), fun k v h => ?_⟩
  rcases h23.2 k v h with h2 | h2
  · exact h12.2 k v h2
  · exact Or.inr h2

theorem addSaved_extends (all tps : GoMap) (name : String) :
    Extends all tps (addSaved tps name (mapGet all (searchName name))) := by
  unfold addSaved
  cases hs : mapGet all (searchName name) with
  | none => exact Extends.refl all tps
  | some d =>
    cases hg : mapGet tps name with
    | some v0 => simpa using Extends.refl all tps
    | none =>
      simp only [Option.isSome_none, Bool.not_false, if_true]
      constructor
      · intro k v h
        rw [mapGet_mapSet]
        by_cases hk : name = k
        · subst hk; rw [hg] at h; cases h
        · simpa [hk] using h
      · intro k v h
        rw [mapGet_mapSet] at h
        by_cases hk : name = k
        · subst hk
          simp only [if_true] at h
          exact Or.inr (hs.trans h)
        · simp only [hk, if_false] at h
          exact Or.inl h

theorem addSaved_key (tps : GoMap) (name : String) (d : SpecType) :
    (mapGet (addSaved tps name (some d)) name).isSome = true := by
  unfold addSaved
  cases hg : mapGet tps name with
  | some v0 => simp [hg]
  | none => simp [mapGet_mapSet]

theorem foldlM_extends (all : GoMap) (f : GoMap → Member → Option GoMap) (ms : List Member)
    (hf : ∀ m ∈ ms, ∀ t t', f t m = some t' → Extends all t t') :
    ∀ tps tps', ms.foldlM f tps = some tps' → Extends all tps tps' := by
  induction ms with
  | nil =>
    intro tps tps' h
    simp at h
    subst h
    exact Extends.refl all tps
  | cons m rest ih =>
    intro tps tps' h
    simp only [List.foldlM_cons, Option.bind_eq_bind, Option.bind_eq_some] at h
    obtain ⟨t1, h1, h2⟩ := h
    exact (hf m (List.mem_cons_self _ _) tps t1 h1).trans
      (ih (fun m' hm => hf m' (List.mem_cons_of_mem _ hm)) t1 tps' h2)

theorem visitMember_extends (all : GoMap) (recur : SpecType → GoMap → Option GoMap)
    (hr : ∀ t tps tps', recur t tps = some tps' → Extends all tps tps')
    (item : Member) (tps tps' : GoMap) (h : visitMember recur tps item = some tps') :
    Extends all tps tps' := by
  unfold visitMember at h
  split at h
  · exact hr _ _ _ h
  · split at h
    · cases h; exact Extends.refl all tps
    · exact hr _ _ _ h
  · split at h
    · cases h; exact Extends.refl all tps
    · exact hr _ _ _ h
  · exact hr _ _ _ h
  · cases h; exact Extends.refl all tps

/-- Every terminating call of `associatedTypes` extends the resolved set. -/
theorem associatedTypes_extends (all : GoMap) :
    ∀ fuel tp tps tps', associatedTypes fuel tp tps all = some tps' → Extends all tps tps' := by
  intro fuel
  induction fuel with
  | zero => intro tp tps tps' h; cases h
  | succ fuel ih =>
    intro tp tps tps' h
    have hadd := addSaved_extends all tps tp.Name
    cases hs : mapGet all (searchName tp.Name) with
    | none =>
      rw [associatedTypes_other fuel tp tps all (by simp [hs]) (by simp [hs])] at h
      cases h
      exact hadd
    | some d =>
      rw [hs] at hadd
      cases d with
      | PointerType n inner =>
        rw [associatedTypes_pointer fuel tp tps all n inner hs] at h
        exact hadd.trans (ih _ _ _ h)
      | DefineStruct n members =>
        rw [associatedTypes_struct fuel tp tps all n members hs] at h
        refine hadd.trans (foldlM_extends all _ members ?_ _ _ h)
        intro m _ t t' hv
        exact visitMember_extends all _ (fun t tps tps' hr => ih t tps tps' hr) m t t' hv
      | PrimitiveType n =>
        rw [associatedTypes_other fuel tp tps all (by simp [hs]) (by simp [hs]), hs] at h
        cases h
        exact hadd
      | MapType n k v =>
        rw [associatedTypes_other fuel tp tps all (by simp [hs]) (by simp [hs]), hs] at h
        cases h
        exact hadd
      | ArrayType n v =>
        rw [associatedTypes_other fuel tp tps all (by simp [hs]) (by simp [hs]), hs] at h
        cases h
        exact hadd
      | InterfaceType n =>
        rw [associatedTypes_other fuel tp tps all (by simp [hs]) (by simp [hs]), hs] at h
        cases h
        exact hadd

/-- After a terminating call on a type whose stripped name the registry
declares, the name of the type is a key of the resolved set. -/
theorem associatedTypes_key (all : GoMap) (fuel : Nat) (tp : SpecType) (tps tps' : GoMap)
    (d : SpecType) (hs : mapGet all (searchName tp.Name) = some d)
    (h : associatedTypes fuel tp tps all = some tps') :
    (mapGet tps' tp.Name).isSome = true := by
  cases fuel with
  | zero => cases h
  | succ fuel =>
    have hk := addSaved_key tps tp.Name d
    obtain ⟨v, hv⟩ := Option.isSome_iff_exists.mp hk
    have hext : Extends all (addSaved tps tp.Name (some d)) tps' := by
      cases d with
      | PointerType n inner =>
        rw [associatedTypes_pointer fuel tp tps all n inner hs] at h
        exact associatedTypes_extends all _ _ _ _ h
      | DefineStruct n members =>
        rw [associatedTypes_struct fuel tp tps all n members hs] at h
        refine foldlM_extends all _ members ?_ _ _ h
        intro m _ t t' hv
        exact visitMember_extends all _
          (fun t tps tps' hr => associatedTypes_extends all fuel t tps tps' hr) m t t' hv
      | PrimitiveType n =>
        rw [associatedTypes_other fuel tp tps all (by simp [hs]) (by simp [hs]), hs] at h
        cases h
        exact Extends.refl all _
      | MapType n k v =>
        rw [associatedTypes_other fuel tp tps all (by simp [hs]) (by simp [hs]), hs] at h
        cases h
        exact Extends.refl all _
      | ArrayType n v =>
        rw [associatedTypes_other fuel tp tps all (by simp [hs]) (by simp [hs]), hs] at h
        cases h
        exact Extends.refl all _
      | InterfaceType n =>
        rw [associatedTypes_other fuel tp tps all (by simp [hs]) (by simp [hs]), hs] at h
        cases h
        exact Extends.refl all _
    rw [hext.1 _ _ hv]
    rfl


/-! ## Resolution: the recursion bound -/

theorem visitMember_mono (r1 r2 : SpecType → GoMap → Option GoMap)
    (h : ∀ t m r, r1 t m = some r → r2 t m = some r) (tps : GoMap) (item : Member) (res : GoMap)
    (hv : visitMember r1 tps item = some res) : visitMember r2 tps item = some res := by
  unfold visitMember at hv ⊢
  split at hv
  · exact h _ _ _ hv
  · split at hv
    · simp only [*, if_true]
    · simp only [*, Bool.false_eq_true, if_false]; exact h _ _ _ hv
  · split at hv
    · simp only [*, if_true]
    · simp only [*, Bool.false_eq_true, if_false]; exact h _ _ _ hv
  · exact h _ _ _ hv
  · exact hv

theorem foldlM_visitMember_mono (r1 r2 : SpecType → GoMap → Option GoMap)
    (h : ∀ t m r, r1 t m = some r → r2 t m = some r) (ms : List Member) :
    ∀ tps res, ms.foldlM (visitMember r1) tps = some res →
      ms.foldlM (visitMember r2) tps = some res := by
  induction ms with
  | nil => intro tps res hf; exact hf
  | cons m rest ih =>
    intro tps res hf
    simp only [List.foldlM_cons, Option.bind_eq_bind, Option.bind_eq_some] at hf ⊢
    obtain ⟨t1, h1, h2⟩ := hf
    exact ⟨t1, visitMember_mono r1 r2 h tps m t1 h1, ih t1 res h2⟩

/-- A result obtained within a recursion bound is obtained within the next
bound. -/
theorem associatedTypes_succ_of_some (all : GoMap) :
    ∀ fuel tp tps res, associatedTypes fuel tp tps all = some res →
      associatedTypes (fuel + 1) tp tps all = some res := by
  intro fuel
  induction fuel with
  | zero => intro tp tps res h; cases h
  | succ fuel ih =>
    intro tp tps res h
    cases hs : mapGet all (searchName tp.Name) with
    | none =>
      rw [associatedTypes_other fuel tp tps all (by simp [hs]) (by simp [hs])] at h
      rw [associatedTypes_other (fuel + 1) tp tps all (by simp [hs]) (by simp [hs])]
      exact h
    | some d =>
      cases d with
      | PointerType n inner =>
        rw [associatedTypes_pointer fuel tp tps all n inner hs] at h
        rw [associatedTypes_pointer (fuel + 1) tp tps all n inner hs]
        exact ih _ _ _ h
      | DefineStruct n members =>
        rw [associatedTypes_struct fuel tp tps all n members hs] at h
        rw [associatedTypes_struct (fuel + 1) tp tps all n members hs]
        exact foldlM_visitMember_mono _ _ (fun t m r hr => ih t m r hr) members _ _ h
      | PrimitiveType n =>
        rw [associatedTypes_other fuel tp tps all (by simp [hs]) (by simp [hs])] at h
        rw [associatedTypes_other (fuel + 1) tp tps all (by simp [hs]) (by simp [hs])]
        exact h
      | MapType n k v =>
        rw [associatedTypes_other fuel tp tps all (by simp [hs]) (by simp [hs])] at h
        rw [associatedTypes_other (fuel + 1) tp tps all (by simp [hs]) (by simp [hs])]
        exact h
      | ArrayType n v =>
        rw [associatedTypes_other fuel tp tps all (by simp [hs]) (by simp [hs])] at h
        rw [associatedTypes_other (fuel + 1) tp tps all (by simp [hs]) (by simp [hs])]
        exact h
      | InterfaceType n =>
        rw [associatedTypes_other fuel tp tps all (by simp [hs]) (by simp [hs])] at h
        rw [associatedTypes_other (fuel + 1) tp tps all (by simp [hs]) (by simp [hs])]
        exact h

theorem associatedTypes_mono (all : GoMap) (tp : SpecType) (tps res : GoMap) (f1 f2 : Nat)
    (hle : f1 ≤ f2) (h : associatedTypes f1 tp tps all = some res) :
    associatedTypes f2 tp tps all = some res := by
  induction hle with
  | refl => exact h
  | step _ ih => exact associatedTypes_succ_of_some all _ tp tps res ih

/-- The result of `associatedTypes` does not depend on the recursion bound
within which it is obtained. -/
theorem associatedTypes_fuel_unique (all : GoMap) (tp : SpecType) (tps r1 r2 : GoMap)
    (f1 f2 : Nat) (h1 : associatedTypes f1 tp tps all = some r1)
    (h2 : associatedTypes f2 tp tps all = some r2) : r1 = r2 := by
  have e1 := associatedTypes_mono all tp tps r1 f1 (max f1 f2) (le_max_left _ _) h1
  have e2 := associatedTypes_mono all tp tps r2 f2 (max f1 f2) (le_max_right _ _) h2
  rw [e1] at e2
  exact Option.some.inj e2

theorem resolvedSet_fuel_unique (all : GoMap) (tp : SpecType) (r1 r2 : GoMap)
    (f1 f2 : Nat) (h1 : resolvedSet f1 tp all = some r1)
    (h2 : resolvedSet f2 tp all = some r2) : r1 = r2 := by
  unfold resolvedSet at h1 h2
  by_cases hs : tp.isStruct = true
  · simp only [hs, if_true] at h1 h2
    exact associatedTypes_fuel_unique all tp _ r1 r2 f1 f2 h1 h2
  · simp only [hs, Bool.false_eq_true, if_false] at h1 h2
    rw [h1] at h2
    exact Option.some.inj h2


/-! ## Claims on resolution -/

theorem visitMember_pruned (recur : SpecType → GoMap → Option GoMap) (tps : GoMap)
    (item : Member) (h : prunedField item.Tp = true) : visitMember recur tps item = some tps := by
  unfold visitMember
  cases ht : item.Tp <;> rw [ht] at h <;> simp [prunedField] at h <;> simp [h]

theorem foldlM_pruned (recur : SpecType → GoMap → Option GoMap) (ms : List Member)
    (h : ∀ m ∈ ms, prunedField m.Tp = true) (tps : GoMap) :
    ms.foldlM (visitMember recur) tps = some tps := by
  induction ms with
  | nil => rfl
  | cons m rest ih =>
    simp only [List.foldlM_cons, visitMember_pruned recur tps m (h m (List.mem_cons_self _ _))]
    exact ih (fun m' hm => h m' (List.mem_cons_of_mem _ hm))

theorem mapGet_mem (m : GoMap) (k : String) (v : SpecType) (h : mapGet m k = some v) :
    (k, v) ∈ m := by
  induction m with
  | nil => cases h
  | cons e rest ih =>
    obtain ⟨k0, v0⟩ := e
    unfold mapGet at h
    by_cases hk : k0 = k
    · simp only [hk, if_true] at h
      cases h
      subst hk
      exact List.mem_cons_self _ _
    · simp only [hk, if_false] at h
      exact List.mem_cons_of_mem _ (ih h)

theorem star_ne (T : String) : T ≠ "*" ++ T := by
  intro h
  have h1 := congrArg String.length h
  simp [String.length_append] at h1
  exact absurd h1 (by decide)

theorem searchName_star (T : String) : searchName ("*" ++ T) = T := by
  simp [searchName]

theorem foldlM_member_key (all : GoMap) (fuel : Nat) (ms : List Member) (m : Member)
    (hm : m ∈ ms)
    (hcall : ∀ tps, visitMember (fun t x => associatedTypes fuel t x all) tps m =
      associatedTypes fuel m.Tp tps all)
    (d : SpecType) (hd : mapGet all (searchName m.Tp.Name) = some d) :
    ∀ tps tps', ms.foldlM (visitMember (fun t x => associatedTypes fuel t x all)) tps = some tps' →
      (mapGet tps' m.Tp.Name).isSome = true := by
  induction ms with
  | nil => cases hm
  | cons m0 rest ih =>
    intro tps tps' h
    simp only [List.foldlM_cons, Option.bind_eq_bind, Option.bind_eq_some] at h
    obtain ⟨t1, h1, h2⟩ := h
    rcases List.mem_cons.mp hm with rfl | hr
    · rw [hcall] at h1
      obtain ⟨v, hv⟩ := Option.isSome_iff_exists.mp (associatedTypes_key all fuel m.Tp tps t1 d hd h1)
      have hext : Extends all t1 tps' := by
        refine foldlM_extends all _ rest ?_ _ _ h2
        intro m' _ t t' hv'
        exact visitMember_extends all _
          (fun t tps tps' hr => associatedTypes_extends all fuel t tps tps' hr) m' t t' hv'
      rw [hext.1 _ _ hv]
      rfl
    · exact ih hr t1 tps' h2

/-- C6 (primitive pruning): a struct field of map type with a primitive value,
or of array type with a primitive element, leaves the resolved set unchanged
(no recursive call is made); and for every struct root whose registry
definition has only primitive fields and such maps and arrays, `associatedTypes`
terminates within any positive recursion bound, the resolved set is exactly
`{root name -> root}`, and `buildDoc` (root name non-empty) returns without
error the fenced text of the single block that `writeType` writes for the
root. -/
theorem primitive_pruning (order : RangeOrder) (all : GoMap) :
    (∀ recur tps name n k value tag comment, value.isPrimitive = true →
      visitMember recur tps (.mk name (.MapType n k value) tag comment) = some tps) ∧
    (∀ recur tps name n value tag comment, value.isPrimitive = true →
      visitMember recur tps (.mk name (.ArrayType n value) tag comment) = some tps) ∧
    (∀ fuel rn rms dn dms,
      mapGet all (searchName rn) = some (.DefineStruct dn dms) →
      (∀ m ∈ dms, prunedField m.Tp = true) →
      resolvedSet (fuel + 1) (.DefineStruct rn rms) all = some [(rn, .DefineStruct rn rms)] ∧
      (rn ≠ "" →
        buildDoc order (fuel + 1) (some (.DefineStruct rn rms)) all =
          some ("\n\n```golang\n" ++ (writeType "" (.DefineStruct rn rms) all).1 ++ "\n```\n",
            none))) := by
  refine ⟨?_, ?_, ?_⟩
  · intro recur tps name n k value tag comment hv
    exact visitMember_pruned recur tps _ (by simpa [prunedField, Member.Tp] using hv)
  · intro recur tps name n value tag comment hv
    exact visitMember_pruned recur tps _ (by simpa [prunedField, Member.Tp] using hv)
  · intro fuel rn rms dn dms hroot hpr
    have hres : resolvedSet (fuel + 1) (.DefineStruct rn rms) all =
        some [(rn, .DefineStruct rn rms)] := by
      unfold resolvedSet
      simp only [SpecType.isStruct, if_true, SpecType.Name]
      rw [associatedTypes_struct fuel _ _ all dn dms (by simpa [SpecType.Name] using hroot),
        foldlM_pruned _ dms hpr]
      simp [addSaved, mapSet, mapGet, SpecType.Name]
    refine ⟨hres, ?_⟩
    intro hname
    rw [buildDoc_of_resolvedSet order _ _ all _ (by simpa [SpecType.Name] using hname) hres]
    unfold buildTypes
    rw [enum_singleton]
    have hw := writeType_struct "" (.DefineStruct rn rms) all rfl
    cases hwt : writeType "" (.DefineStruct rn rms) all with
    | mk b e =>
      rw [hwt] at hw
      simp only at hw
      subst hw
      simp [buildTypesLoop, hwt]

theorem primitive_pruning_witness :
    visitMember (fun t m => associatedTypes 0 t m limitsRegistry) [("Limits", exLimits)]
        (.mk "Quota" (.MapType "map[string]int" "string" (.PrimitiveType "int")) "" "") =
      some [("Limits", exLimits)] ∧
    visitMember (fun t m => associatedTypes 0 t m limitsRegistry) [("Limits", exLimits)]
        (.mk "Ports" (.ArrayType "[]int" (.PrimitiveType "int")) "" "") =
      some [("Limits", exLimits)] ∧
    resolvedSet 1 exLimits limitsRegistry = some [("Limits", exLimits)] ∧
    buildDoc reverseOrder 1 (some exLimits) limitsRegistry =
      some ("\n\n```golang\n" ++ (writeType "" exLimits limitsRegistry).1 ++ "\n```\n", none) :=
  have h := (primitive_pruning reverseOrder limitsRegistry).2.2 0 "Limits" _ "Limits" _
    (show mapGet limitsRegistry (searchName "Limits") = some exLimits from rfl)
    (by intro m hm; simp at hm; rcases hm with rfl | rfl | rfl <;> rfl)
  ⟨(primitive_pruning reverseOrder limitsRegistry).1 _ _ "Quota" _ _ _ "" "" rfl,
   (primitive_pruning reverseOrder limitsRegistry).2.1 _ _ "Ports" _ _ "" "" rfl,
   h.1, h.2 (by decide)⟩

theorem foldlM_total (f : GoMap → Member → Option GoMap) (ms : List Member)
    (h : ∀ m ∈ ms, ∀ t, ∃ t', f t m = some t') : ∀ t, ∃ t', ms.foldlM f t = some t' := by
  induction ms with
  | nil => intro t; exact ⟨t, rfl⟩
  | cons m rest ih =>
    intro t
    obtain ⟨t1, h1⟩ := h m (List.mem_cons_self _ _) t
    obtain ⟨t2, h2⟩ := ih (fun m' hm => h m' (List.mem_cons_of_mem _ hm)) t1
    exact ⟨t2, by simp only [List.foldlM_cons, h1, Option.bind_eq_bind, Option.some_bind, h2]⟩

theorem prunedField_of_isPrimitive (t : SpecType) (h : t.isPrimitive = true) :
    prunedField t = true := by
  cases t <;> simp [SpecType.isPrimitive] at h
  rfl

/-- A call on a type whose stripped name the registry binds to a struct with
primitive fields only returns within any positive recursion bound. -/
theorem associatedTypes_leaf (all : GoMap) (fuel : Nat) (tp : SpecType) (tps : GoMap)
    (n : String) (ms : List Member)
    (hs : mapGet all (searchName tp.Name) = some (.DefineStruct n ms))
    (hprim : ∀ m ∈ ms, m.Tp.isPrimitive = true) :
    ∃ tps', associatedTypes (fuel + 1) tp tps all = some tps' := by
  rw [associatedTypes_struct fuel tp tps all n ms hs,
    foldlM_pruned _ ms (fun m hm => prunedField_of_isPrimitive _ (hprim m hm))]
  exact ⟨_, rfl⟩

/-- C4 (pointer aliasing): let the registry declare under `T` (a name without a
leading `*`) a struct whose fields are all primitive, and let the registry
definition of the struct root have a field of struct type named `T` and a field
of pointer type named `*T`.  Then `T` and `*T` are distinct keys, the key `*T`
is looked up in the registry under `T` (one leading `*` stripped), and every
resolved set that `buildDoc` builds with `associatedTypes` has entries under
both keys (the unstripped names), both holding the registry's definition of
`T`.  Such a resolved set is produced within recursion bound 2 when the other
fields of the root's registry definition are primitives, maps or arrays of
primitives, or further fields of type `T` or `*T`. -/
theorem pointer_aliasing (all : GoMap) (rn : String) (rms : List Member)
    (dn : String) (dms : List Member) (T tn : String) (tms : List Member)
    (hT : searchName T = T)
    (hroot : mapGet all (searchName rn) = some (.DefineStruct dn dms))
    (hTdef : mapGet all T = some (.DefineStruct tn tms))
    (hprim : ∀ m ∈ tms, m.Tp.isPrimitive = true)
    (hf1 : ∃ m ∈ dms, ∃ fms, m.Tp = .DefineStruct T fms)
    (hf2 : ∃ m ∈ dms, ∃ inner, m.Tp = .PointerType ("*" ++ T) inner) :
    T ≠ "*" ++ T ∧ searchName ("*" ++ T) = T ∧
    (∀ fuel tps, resolvedSet fuel (.DefineStruct rn rms) all = some tps →
      mapGet tps T = some (.DefineStruct tn tms) ∧
      mapGet tps ("*" ++ T) = some (.DefineStruct tn tms) ∧
      (T, .DefineStruct tn tms) ∈ tps ∧ ("*" ++ T, .DefineStruct tn tms) ∈ tps) ∧
    ((∀ m ∈ dms, prunedField m.Tp = true ∨ (∃ fms, m.Tp = .DefineStruct T fms) ∨
        (∃ inner, m.Tp = .PointerType ("*" ++ T) inner)) →
      ∀ fuel, ∃ tps, resolvedSet (fuel + 2) (.DefineStruct rn rms) all = some tps) := by
  have hstar := searchName_star T
  refine ⟨star_ne T, hstar, ?_, ?_⟩
  · intro fuel tps hres
    -- the registry definition of the root is not the definition of `T`
    have hne : ∀ k, searchName k = T → k ≠ rn := by
      intro k hk hkr
      subst hkr
      rw [hk, hTdef] at hroot
      injection hroot with hroot
      injection hroot with h1 h2
      subst h2
      obtain ⟨m, hm, fms, hmt⟩ := hf1
      have := hprim m hm
      rw [hmt] at this
      cases this
    unfold resolvedSet at hres
    simp only [SpecType.isStruct, if_true, SpecType.Name] at hres
    have hext := associatedTypes_extends all _ _ _ _ hres
    cases fuel with
    | zero => cases hres
    | succ fuel =>
      rw [associatedTypes_struct fuel _ _ all dn dms (by simpa [SpecType.Name] using hroot)] at hres
      -- a key that is present and is looked up under `T` holds the definition of `T`
      have key : ∀ k, searchName k = T →
          (mapGet tps k).isSome = true → mapGet tps k = some (.DefineStruct tn tms) := by
        intro k hk hsome
        obtain ⟨v, hv⟩ := Option.isSome_iff_exists.mp hsome
        rcases hext.2 k v hv with h0 | h0
        · have hkr := hne k hk
          simp [mapSet, mapGet, Ne.symm hkr] at h0
        · rw [hk, hTdef] at h0
          rw [hv, ← h0]
      have k1 : (mapGet tps T).isSome = true := by
        obtain ⟨m, hm, fms, hmt⟩ := hf1
        have := foldlM_member_key all fuel dms m hm
          (by intro t; simp only [visitMember, hmt])
          (.DefineStruct tn tms) (by rw [hmt]; simpa [SpecType.Name, hT] using hTdef) _ _ hres
        simpa [hmt, SpecType.Name] using this
      have k2 : (mapGet tps ("*" ++ T)).isSome = true := by
        obtain ⟨m, hm, inner, hmt⟩ := hf2
        have := foldlM_member_key all fuel dms m hm
          (by intro t; simp only [visitMember, hmt])
          (.DefineStruct tn tms) (by rw [hmt]; simpa [SpecType.Name, hstar] using hTdef) _ _ hres
        simpa [hmt, SpecType.Name] using this
      have e1 := key T hT k1
      have e2 := key ("*" ++ T) hstar k2
      exact ⟨e1, e2, mapGet_mem _ _ _ e1, mapGet_mem _ _ _ e2⟩
  · intro hrest fuel
    unfold resolvedSet
    simp only [SpecType.isStruct, if_true, SpecType.Name]
    rw [associatedTypes_struct (fuel + 1) _ _ all dn dms (by simpa [SpecType.Name] using hroot)]
    apply foldlM_total
    intro m hm t
    rcases hrest m hm with hp | ⟨fms, hmt⟩ | ⟨inner, hmt⟩
    · exact ⟨t, visitMember_pruned _ t m hp⟩
    · simp only [visitMember, hmt]
      exact associatedTypes_leaf all fuel _ t tn tms
        (by simpa [SpecType.Name, hT] using hTdef) hprim
    · simp only [visitMember, hmt]
      exact associatedTypes_leaf all fuel _ t tn tms
        (by simpa [SpecType.Name, hstar] using hTdef) hprim

theorem pointer_aliasing_witness :
    (mapGet [("Pair", exPair), ("User", exUser), ("*User", exUser)] "User" = some exUser ∧
      mapGet [("Pair", exPair), ("User", exUser), ("*User", exUser)] ("*" ++ "User") =
        some exUser ∧
      ("User", exUser) ∈ [("Pair", exPair), ("User", exUser), ("*User", exUser)] ∧
      ("*" ++ "User", exUser) ∈ [("Pair", exPair), ("User", exUser), ("*User", exUser)]) ∧
    ∃ tps, resolvedSet 2 exPair pairRegistry = some tps :=
  have h := pointer_aliasing pairRegistry "Pair" _ "Pair" _ "User" "User" _
    (by decide)
    (show mapGet pairRegistry (searchName "Pair") = some exPair from rfl)
    (show mapGet pairRegistry "User" = some exUser from rfl)
    (by intro m hm; simp at hm; rcases hm with rfl | rfl <;> rfl)
    ⟨_, List.mem_cons_self _ _, [], rfl⟩
    ⟨_, List.mem_cons_of_mem _ (List.mem_cons_self _ _), userRef, rfl⟩
  ⟨h.2.2.1 2 [("Pair", exPair), ("User", exUser), ("*User", exUser)]
      (show resolvedSet 2 exPair pairRegistry = _ from rfl),
   h.2.2.2 (by
      intro m hm
      simp at hm
      rcases hm with rfl | rfl
      · exact Or.inr (Or.inl ⟨[], rfl⟩)
      · exact Or.inr (Or.inr ⟨userRef, rfl⟩)) 0⟩

/-- C1 fails on the code for nested containers: in the registry that declares
`User` and `Groups{ByName map[string][]User}`, the struct `User` is referenced
from the root `Groups` through a map value and an array element, yet the
resolved set is `{Groups}` alone (within any recursion bound that suffices):
the call on the array type `[]User` looks the name `[]User` up in the registry,
finds nothing and returns. -/
theorem nested_container_not_resolved :
    mapGet groupsRegistry "Groups" = some exGroups ∧
    mapGet groupsRegistry "User" = some exUser ∧ exUser.isStruct = true ∧
    Reachable groupsRegistry "Groups" "User" ∧
    resolvedSet 2 exGroups groupsRegistry = some [("Groups", exGroups)] ∧
    (∀ fuel tps, resolvedSet fuel exGroups groupsRegistry = some tps →
      tps = [("Groups", exGroups)]) ∧
    buildDoc insertionOrder 2 (some exGroups) groupsRegistry =
      some ("\n\n```golang\ntype Groups struct \x7b\n\tByName map[string][]User \n\x7d\n```\n", none) := by
  refine ⟨rfl, rfl, rfl, ?_, rfl, ?_, by decide⟩
  · refine Relation.ReflTransGen.single ⟨"Groups", _, _, rfl, List.mem_cons_self _ _, ?_⟩
    exact Mentions.map _ _ _ _ (Mentions.array _ _ _ (Mentions.struct _ _))
  · intro fuel tps h
    exact resolvedSet_fuel_unique groupsRegistry exGroups _ _ fuel 2 h rfl

theorem associatedTypes_node_diverges :
    ∀ fuel tp tps, searchName tp.Name = "Node" → associatedTypes fuel tp tps nodeRegistry = none := by
  intro fuel
  induction fuel with
  | zero => intro tp tps _; rfl
  | succ fuel ih =>
    intro tp tps hn
    have hs : mapGet nodeRegistry (searchName tp.Name) =
        some (.DefineStruct "Node"
          [.mk "Next" (.PointerType "*Node" (.DefineStruct "Node" [])) "" ""]) := by
      rw [hn]; rfl
    rw [associatedTypes_struct fuel tp tps nodeRegistry _ _ hs]
    simp only [List.foldlM_cons, visitMember, Member.Tp]
    rw [ih _ _ (by decide)]
    rfl

/-- C2 fails on the code: in the registry that declares `Node{Next *Node}`,
resolution of the root `Node` exceeds every recursion bound, so
`associatedTypes` and `buildDoc` do not terminate: the test `hasAdded` guards
the insertion only, and the fields of the registry definition are visited
again on every call. -/
theorem self_reference_diverges (order : RangeOrder) (fuel : Nat) :
    mapGet nodeRegistry "Node" = some exNode ∧
    associatedTypes fuel exNode [("Node", exNode)] nodeRegistry = none ∧
    resolvedSet fuel exNode nodeRegistry = none ∧
    buildDoc order fuel (some exNode) nodeRegistry = none := by
  have h1 : associatedTypes fuel exNode [("Node", exNode)] nodeRegistry = none :=
    associatedTypes_node_diverges fuel exNode _ (by decide)
  have h2 : resolvedSet fuel exNode nodeRegistry = none := h1
  have hv : isValidRoute (some exNode) = true := by decide
  refine ⟨rfl, h1, h2, ?_⟩
  simp [buildDoc, hv, h2]

/-! ## Resolution: the keys of the resolved set stay distinct -/

theorem foldlM_rel (R : GoMap → GoMap → Prop) (hrefl : ∀ t, R t t)
    (htrans : ∀ a b c, R a b → R b c → R a c)
    (f : GoMap → Member → Option GoMap) (ms : List Member)
    (hf : ∀ m ∈ ms, ∀ t t', f t m = some t' → R t t') :
    ∀ tps tps', ms.foldlM f tps = some tps' → R tps tps' := by
  induction ms with
  | nil =>
    intro tps tps' h
    simp at h
    subst h
    exact hrefl tps
  | cons m rest ih =>
    intro tps tps' h
    simp only [List.foldlM_cons, Option.bind_eq_bind, Option.bind_eq_some] at h
    obtain ⟨t1, h1, h2⟩ := h
    exact htrans _ _ _ (hf m (List.mem_cons_self _ _) tps t1 h1)
      (ih (fun m' hm => hf m' (List.mem_cons_of_mem _ hm)) t1 tps' h2)

theorem visitMember_rel (R : GoMap → GoMap → Prop) (hrefl : ∀ t, R t t)
    (recur : SpecType → GoMap → Option GoMap)
    (hr : ∀ t tps tps', recur t tps = some tps' → R tps tps')
    (item : Member) (tps tps' : GoMap) (h : visitMember recur tps item = some tps') :
    R tps tps' := by
  unfold visitMember at h
  split at h
  · exact hr _ _ _ h
  · split at h
    · cases h; exact hrefl tps
    · exact hr _ _ _ h
  · split at h
    · cases h; exact hrefl tps
    · exact hr _ _ _ h
  · exact hr _ _ _ h
  · cases h; exact hrefl tps

/-- A reflexive and transitive relation that every insertion step respects
holds between the resolved set before and after a terminating call. -/
theorem associatedTypes_rel (all : GoMap) (R : GoMap → GoMap → Prop) (hrefl : ∀ t, R t t)
    (htrans : ∀ a b c, R a b → R b c → R a c)
    (hadd : ∀ tps name, R tps (addSaved tps name (mapGet all (searchName name)))) :
    ∀ fuel tp tps tps', associatedTypes fuel tp tps all = some tps' → R tps tps' := by
  intro fuel
  induction fuel with
  | zero => intro tp tps tps' h; cases h
  | succ fuel ih =>
    intro tp tps tps' h
    have ha := hadd tps tp.Name
    cases hs : mapGet all (searchName tp.Name) with
    | none =>
      rw [associatedTypes_other fuel tp tps all (by simp [hs]) (by simp [hs])] at h
      cases h
      exact ha
    | some d =>
      rw [hs] at ha
      cases d with
      | PointerType n inner =>
        rw [associatedTypes_pointer fuel tp tps all n inner hs] at h
        exact htrans _ _ _ ha (ih _ _ _ h)
      | DefineStruct n members =>
        rw [associatedTypes_struct fuel tp tps all n members hs] at h
        refine htrans _ _ _ ha (foldlM_rel R hrefl htrans _ members ?_ _ _ h)
        intro m _ t t' hv
        exact visitMember_rel R hrefl _ (fun t tps tps' hr => ih t tps tps' hr) m t t' hv
      | PrimitiveType n =>
        rw [associatedTypes_other fuel tp tps all (by simp [hs]) (by simp [hs]), hs] at h
        cases h
        exact ha
      | MapType n k v =>
        rw [associatedTypes_other fuel tp tps all (by simp [hs]) (by simp [hs]), hs] at h
        cases h
        exact ha
      | ArrayType n v =>
        rw [associatedTypes_other fuel tp tps all (by simp [hs]) (by simp [hs]), hs] at h
        cases h
        exact ha
      | InterfaceType n =>
        rw [associatedTypes_other fuel tp tps all (by simp [hs]) (by simp [hs]), hs] at h
        cases h
        exact ha

theorem mapGet_eq_none_iff (m : GoMap) (k : String) : mapGet m k = none ↔ k ∉ mapKeys m := by
  induction m with
  | nil => simp [mapGet, mapKeys]
  | cons e rest ih =>
    obtain ⟨k0, v0⟩ := e
    by_cases hk : k0 = k
    · simp [mapGet, mapKeys, hk]
    · have hk2 : ¬ k = k0 := fun h => hk h.symm
      simpa [mapGet, mapKeys, hk, hk2] using ih

theorem mapKeys_mapSet_new (m : GoMap) (k : String) (v : SpecType) (h : mapGet m k = none) :
    mapKeys (mapSet m k v) = mapKeys m ++ [k] := by
  induction m with
  | nil => rfl
  | cons e rest ih =>
    obtain ⟨k0, v0⟩ := e
    by_cases hk : k0 = k
    · simp [mapGet, hk] at h
    · simp only [mapGet, hk, if_false] at h
      have := ih h
      simp only [mapKeys] at this
      simp [mapSet, mapKeys, hk, this]

theorem addSaved_nodup (tps : GoMap) (name : String) (saved : Option SpecType)
    (h : (mapKeys tps).Nodup) : (mapKeys (addSaved tps name saved)).Nodup := by
  unfold addSaved
  cases saved with
  | none => exact h
  | some d =>
    cases hg : mapGet tps name with
    | some v0 => simpa using h
    | none =>
      simp only [Option.isSome_none, Bool.not_false, if_true]
      rw [mapKeys_mapSet_new tps name d hg]
      refine List.Nodup.append h (List.nodup_singleton _) ?_
      intro x hx hx2
      rw [List.mem_singleton] at hx2
      subst hx2
      exact (mapGet_eq_none_iff tps x).mp hg hx

/-- The keys of every resolved set that `buildDoc` builds are pairwise
distinct. -/
theorem resolvedSet_nodup (fuel : Nat) (route : SpecType) (all tps : GoMap)
    (h : resolvedSet fuel route all = some tps) : (mapKeys tps).Nodup := by
  have h0 : (mapKeys (mapSet [] route.Name route)).Nodup := by simp [mapSet, mapKeys]
  unfold resolvedSet at h
  by_cases hs : route.isStruct = true
  · simp only [hs, if_true] at h
    exact associatedTypes_rel all (fun a b => (mapKeys a).Nodup → (mapKeys b).Nodup)
      (fun _ h => h) (fun _ _ _ h1 h2 h => h2 (h1 h))
      (fun t name h => addSaved_nodup t name _ h) fuel route _ tps h h0
  · simp only [hs, Bool.false_eq_true, if_false] at h
    cases h
    exact h0

/-! ## Rendering: the text is the blocks joined by a blank line -/

theorem WriteIndent_append (n : Nat) : ∀ w, WriteIndent w n = w ++ WriteIndent "" n := by
  induction n with
  | zero => intro w; simp [WriteIndent]
  | succ n ih =>
    intro w
    simp only [WriteIndent]
    rw [ih (w ++ "\t"), ih ("" ++ "\t"), String.empty_append, String.append_assoc]

theorem writeProperty_append (w name tag comment : String) (tp : SpecType) (indent : Nat) :
    writeProperty w name tag comment tp indent =
      (w ++ (writeProperty "" name tag comment tp indent).1, none) := by
  unfold writeProperty
  simp only [WriteIndent_append indent w]
  split <;> split <;> simp [String.append_assoc]

theorem writeMembersLoop_append (all : GoMap) (members : List Member) :
    ∀ w, writeMembersLoop all members w = (w ++ (writeMembersLoop all members "").1, none) := by
  induction members with
  | nil => intro w; simp [writeMembersLoop]
  | cons m rest ih =>
    intro w
    simp only [writeMembersLoop]
    rw [writeProperty_append w, writeProperty_append ""]
    simp only
    rw [ih (w ++ _), ih ("" ++ _)]
    simp [String.append_assoc]

theorem writeType_append (w : String) (tp : SpecType) (all : GoMap) (h : tp.isStruct = true) :
    writeType w tp all = (w ++ (writeType "" tp all).1, none) := by
  cases tp <;> simp [SpecType.isStruct] at h
  simp only [writeType, writerMembers]
  rw [writeMembersLoop_append all _ (w ++ _), writeMembersLoop_append all _ ("" ++ _)]
  simp [String.append_assoc]

theorem buildTypesLoop_go (all : GoMap) (l : List (String × SpecType))
    (h : ∀ e ∈ l, e.2.isStruct = true) :
    ∀ b, buildTypesLoop all l b false =
      (String.intercalate.go b "\n\n" (renderedBlocks all l), none) := by
  induction l with
  | nil => intro b; simp [buildTypesLoop, renderedBlocks, String.intercalate.go]
  | cons e rest ih =>
    intro b
    obtain ⟨k, tp⟩ := e
    have hs : tp.isStruct = true := h (k, tp) (List.mem_cons_self _ _)
    simp only [buildTypesLoop, Bool.false_eq_true, if_false]
    rw [writeType_append (b ++ "\n\n") tp all hs]
    simp only
    rw [ih (fun e he => h e (List.mem_cons_of_mem _ he))]
    simp [renderedBlocks, String.intercalate.go]

/-- On entries that are all structs, `buildTypes` returns their blocks joined
by a blank line, in the order of enumeration. -/
theorem buildTypesLoop_intercalate (all : GoMap) (l : List (String × SpecType))
    (h : ∀ e ∈ l, e.2.isStruct = true) :
    buildTypesLoop all l "" true = ("\n\n".intercalate (renderedBlocks all l), none) := by
  cases l with
  | nil => simp [buildTypesLoop, renderedBlocks, String.intercalate]
  | cons e rest =>
    obtain ⟨k, tp⟩ := e
    have hs : tp.isStruct = true := h (k, tp) (List.mem_cons_self _ _)
    simp only [buildTypesLoop, if_true]
    rw [writeType_append "" tp all hs]
    simp only
    rw [buildTypesLoop_go all rest (fun e he => h e (List.mem_cons_of_mem _ he))]
    simp [renderedBlocks, String.intercalate]

theorem enum_of_length_le_one (o1 o2 : RangeOrder) (types : GoMap) (h : types.length ≤ 1) :
    o1.enum types = o2.enum types := by
  match types, h with
  | [], _ =>
    rw [List.perm_nil.mp (o1.perm []), List.perm_nil.mp (o2.perm [])]
  | [e], _ => rw [enum_singleton, enum_singleton]

/-! ## Claims on the order of enumeration -/

/-- C3, as stated, fails: on the resolved set `{Wrapper, User}` of the root
`Wrapper{Items []User}`, the enumeration in insertion order and the reverse
enumeration give different texts, for `buildTypes` and for `buildDoc`. -/
theorem buildTypes_order_counterexample :
    resolvedSet 2 exWrapper exampleRegistry = some [("Wrapper", exWrapper), ("User", exUser)] ∧
    buildTypes insertionOrder [("Wrapper", exWrapper), ("User", exUser)] exampleRegistry ≠
      buildTypes reverseOrder [("Wrapper", exWrapper), ("User", exUser)] exampleRegistry ∧
    buildDoc insertionOrder 2 (some exWrapper) exampleRegistry ≠
      buildDoc reverseOrder 2 (some exWrapper) exampleRegistry := by
  refine ⟨rfl, by decide, by decide⟩

/-- C3 amended: the text that `buildTypes` returns is determined by the
resolved set and the order in which its entries are enumerated.  For every two
enumeration orders: `buildTypes` fails for both or for neither, and returns the
empty text when it fails; when all entries are structs it returns the blocks of
the entries joined by a blank line in the order of enumeration, and the blocks
of the two orders are the same up to their order; the two results are equal
when the orders agree on the set, in particular when the set has at most one
entry, and then `buildDoc` returns the same result for both. -/
theorem buildTypes_order_dependence (o1 o2 : RangeOrder) (types all : GoMap) :
    ((buildTypes o1 types all).2.isSome = (buildTypes o2 types all).2.isSome) ∧
    ((buildTypes o1 types all).2.isSome = true →
      (buildTypes o1 types all).1 = "" ∧ (buildTypes o2 types all).1 = "") ∧
    ((∀ e ∈ types, e.2.isStruct = true) →
      buildTypes o1 types all = ("\n\n".intercalate (renderedBlocks all (o1.enum types)), none) ∧
      buildTypes o2 types all = ("\n\n".intercalate (renderedBlocks all (o2.enum types)), none) ∧
      (renderedBlocks all (o1.enum types)).Perm (renderedBlocks all (o2.enum types))) ∧
    (o1.enum types = o2.enum types → buildTypes o1 types all = buildTypes o2 types all) ∧
    (types.length ≤ 1 → buildTypes o1 types all = buildTypes o2 types all) ∧
    (∀ fuel route, resolvedSet fuel route all = some types → o1.enum types = o2.enum types →
      buildDoc o1 fuel (some route) all = buildDoc o2 fuel (some route) all) := by
  have hiff := fun o => buildTypes_error_iff o types all
  have hsame : (buildTypes o1 types all).2.isSome = (buildTypes o2 types all).2.isSome := by
    exact Bool.eq_iff_iff.mpr ((hiff o1).trans (hiff o2).symm)
  have heq : o1.enum types = o2.enum types → buildTypes o1 types all = buildTypes o2 types all := by
    intro h
    unfold buildTypes
    rw [h]
  refine ⟨hsame, ?_, ?_, heq, fun h => heq (enum_of_length_le_one o1 o2 types h), ?_⟩
  · intro h
    exact ⟨buildTypes_error_text o1 types all h, buildTypes_error_text o2 types all (hsame ▸ h)⟩
  · intro h
    refine ⟨?_, ?_, ?_⟩
    · exact buildTypesLoop_intercalate all _ (fun e he => h e ((mem_enum_iff o1 types e).mp he))
    · exact buildTypesLoop_intercalate all _ (fun e he => h e ((mem_enum_iff o2 types e).mp he))
    · exact List.Perm.map _ ((o1.perm types).trans (o2.perm types).symm)
  · intro fuel route hres h
    by_cases hname : route.Name = ""
    · rw [buildDoc_empty_name o1 fuel all route hname, buildDoc_empty_name o2 fuel all route hname]
    · rw [buildDoc_of_resolvedSet o1 fuel route all types hname hres,
        buildDoc_of_resolvedSet o2 fuel route all types hname hres, heq h]

theorem buildTypes_order_dependence_witness :
    (buildTypes insertionOrder [("User", exUser)] exampleRegistry =
      buildTypes reverseOrder [("User", exUser)] exampleRegistry) ∧
    (renderedBlocks exampleRegistry
        (insertionOrder.enum [("Wrapper", exWrapper), ("User", exUser)])).Perm
      (renderedBlocks exampleRegistry
        (reverseOrder.enum [("Wrapper", exWrapper), ("User", exUser)])) :=
  ⟨(buildTypes_order_dependence insertionOrder reverseOrder [("User", exUser)]
      exampleRegistry).2.2.2.2.1 (by decide),
   ((buildTypes_order_dependence insertionOrder reverseOrder
      [("Wrapper", exWrapper), ("User", exUser)] exampleRegistry).2.2.1
      (by intro e he; simp at he; rcases he with rfl | rfl <;> rfl)).2.2⟩


/-! ## Claims on the blocks of the text -/

theorem header_injective (a b : String)
    (h : "type " ++ a ++ " struct \x7b\n" = "type " ++ b ++ " struct \x7b\n") : a = b := by
  have h1 := congrArg String.data h
  simp only [String.data_append] at h1
  exact String.ext (List.append_cancel_left (List.append_cancel_right h1))

theorem writeType_block (tp : SpecType) (all : GoMap) (h : tp.isStruct = true) :
    ∃ body, (writeType "" tp all).1 = "type " ++ Title tp.Name ++ " struct \x7b\n" ++ body ++ "\x7d" := by
  cases tp <;> simp [SpecType.isStruct] at h
  rename_i n ms
  refine ⟨(writeMembersLoop all ms "").1, ?_⟩
  simp only [writeType, writerMembers]
  rw [writeMembersLoop_append all ms ("" ++ _)]
  simp [String.append_assoc]

/-- C5, as stated, fails: the text of `buildDoc` can have two blocks with the
same header.  For the root `Pair{A User; B *User}` the entries `User` and
`*User` both hold the registry's definition of `User`, whose block is rendered
for each; for the root `Account{Owner User; Login user}` the distinct structs
`User` and `user` are both rendered under the capitalized header
`type User struct {`. -/
theorem duplicate_header_counterexample :
    resolvedSet 2 exPair pairRegistry =
      some [("Pair", exPair), ("User", exUser), ("*User", exUser)] ∧
    buildDoc insertionOrder 2 (some exPair) pairRegistry =
      some ("\n\n```golang\ntype Pair struct \x7b\n\tA User \n\tB *User \n\x7d\n\ntype User struct \x7b\n\tID int `json:\"id\"`\n\tName string `json:\"name\"`\n\x7d\n\ntype User struct \x7b\n\tID int `json:\"id\"`\n\tName string `json:\"name\"`\n\x7d\n```\n", none) ∧
    resolvedSet 2 exAccount accountRegistry =
      some [("Account", exAccount), ("User", exUser), ("user", exLowerUser)] ∧
    buildDoc insertionOrder 2 (some exAccount) accountRegistry =
      some ("\n\n```golang\ntype Account struct \x7b\n\tOwner User \n\tLogin user \n\x7d\n\ntype User struct \x7b\n\tID int `json:\"id\"`\n\tName string `json:\"name\"`\n\x7d\n\ntype User struct \x7b\n\tID int \n\x7d\n```\n", none) := by
  exact ⟨rfl, rfl, rfl, rfl⟩

/-- C5 amended: whenever `buildDoc` returns a text without error for a root
with a non-empty name, the resolved set has pairwise distinct keys and the text
is the fenced join of exactly one block per entry of the resolved set, in the
order of enumeration; the block of an entry is headed by
`type <capitalized name of the entry's value> struct {`, and the headers of two
entries differ whenever the capitalized names of their values differ. -/
theorem one_block_per_entry (order : RangeOrder) (fuel : Nat) (route : SpecType) (all : GoMap)
    (text : String) (hname : route.Name ≠ "")
    (hdoc : buildDoc order fuel (some route) all = some (text, none)) :
    ∃ tps, resolvedSet fuel route all = some tps ∧ (mapKeys tps).Nodup ∧
      text = "\n\n```golang\n" ++ "\n\n".intercalate (renderedBlocks all (order.enum tps))
        ++ "\n```\n" ∧
      (renderedBlocks all (order.enum tps)).length = tps.length ∧
      (∀ e ∈ tps, ∃ body,
        (writeType "" e.2 all).1 = "type " ++ Title e.2.Name ++ " struct \x7b\n" ++ body ++ "\x7d") ∧
      (∀ e1 ∈ tps, ∀ e2 ∈ tps, Title e1.2.Name ≠ Title e2.2.Name →
        "type " ++ Title e1.2.Name ++ " struct \x7b\n" ≠
          "type " ++ Title e2.2.Name ++ " struct \x7b\n") := by
  cases hres : resolvedSet fuel route all with
  | none => simp [buildDoc, isValidRoute_some, hname, hres] at hdoc
  | some tps =>
    rw [buildDoc_of_resolvedSet order fuel route all tps hname hres] at hdoc
    have hok : ∀ e ∈ tps, e.2.isStruct = true := by
      intro e he
      by_contra hns
      have herr := (buildTypes_error_iff order tps all).mpr ⟨e, he, by simpa using hns⟩
      cases hb : buildTypes order tps all with
      | mk v err =>
        rw [hb] at hdoc herr
        cases err with
        | none => cases herr
        | some msg => cases hdoc
    have hb : buildTypes order tps all =
        ("\n\n".intercalate (renderedBlocks all (order.enum tps)), none) :=
      buildTypesLoop_intercalate all _ (fun e he => hok e ((mem_enum_iff order tps e).mp he))
    rw [hb] at hdoc
    simp only [Option.some.injEq, Prod.mk.injEq, and_true] at hdoc
    refine ⟨tps, rfl, resolvedSet_nodup fuel route all tps hres, hdoc.symm, ?_, ?_, ?_⟩
    · simp only [renderedBlocks, List.length_map]
      exact (order.perm tps).length_eq
    · intro e he
      exact writeType_block e.2 all (hok e he)
    · intro e1 _ e2 _ hne h
      exact hne (header_injective _ _ h)

theorem one_block_per_entry_witness :
    ∃ tps, resolvedSet 2 exWrapper exampleRegistry = some tps ∧ (mapKeys tps).Nodup ∧
      "\n\n```golang\ntype User struct \x7b\n\tID int `json:\"id\"`\n\tName string `json:\"name\"`\n\x7d\n\ntype Wrapper struct \x7b\n\tItems []User \n\x7d\n```\n" =
        "\n\n```golang\n" ++ "\n\n".intercalate (renderedBlocks exampleRegistry
          (reverseOrder.enum tps)) ++ "\n```\n" ∧
      (renderedBlocks exampleRegistry (reverseOrder.enum tps)).length = tps.length ∧
      (∀ e ∈ tps, ∃ body,
        (writeType "" e.2 exampleRegistry).1 =
          "type " ++ Title e.2.Name ++ " struct \x7b\n" ++ body ++ "\x7d") ∧
      (∀ e1 ∈ tps, ∀ e2 ∈ tps, Title e1.2.Name ≠ Title e2.2.Name →
        "type " ++ Title e1.2.Name ++ " struct \x7b\n" ≠
          "type " ++ Title e2.2.Name ++ " struct \x7b\n") :=
  one_block_per_entry reverseOrder 2 exWrapper exampleRegistry _ (by decide) rfl


/-! ## Field lines -/

theorem length_pos_iff (s : String) : s.length > 0 ↔ s ≠ "" := by
  rw [Ne, ← length_eq_zero_iff]
  omega

theorem writeProperty_eq_specFieldLine (w name tag comment : String) (tp : SpecType) :
    writeProperty w name tag comment tp 1 = (w ++ specFieldLine name tp.Name tag comment, none) := by
  have hi : WriteIndent w 1 = w ++ "\t" := rfl
  unfold writeProperty specFieldLine normalizedComment
  rw [hi]
  by_cases hc : comment = "" <;> by_cases hn : name = "" <;>
    simp [hc, hn, length_pos_iff, String.append_assoc]

theorem trimPrefixSlashes_append (c : String) : trimPrefixSlashes ("//" ++ c) = c := by
  simp [trimPrefixSlashes]

theorem trimPrefixSlashes_of_not_prefix (c : String) (h : ¬ "//".data <+: c.data) :
    trimPrefixSlashes c = c := by
  unfold trimPrefixSlashes
  split
  · rename_i rest heq
    exact absurd ⟨rest, by rw [heq]; rfl⟩ h
  · rfl

theorem trimPrefixSlashes_of_prefix (c : String) (h : "//".data <+: c.data) :
    "//" ++ trimPrefixSlashes c = c := by
  obtain ⟨rest, hr⟩ := h
  apply String.ext
  have h1 : c.data = '/' :: '/' :: rest := by rw [← hr]; rfl
  simp [trimPrefixSlashes, h1]


theorem mem_trimPrefixSlashes (c : String) (x : Char) (h : x ∈ (trimPrefixSlashes c).data) :
    x ∈ c.data := by
  unfold trimPrefixSlashes at h
  split at h
  · rename_i rest heq
    rw [heq]
    exact List.mem_cons_of_mem _ (List.mem_cons_of_mem _ h)
  · exact h

theorem specFieldLine_count_newline (name typeName tag comment : String)
    (h1 : '\n' ∉ (stringsTitle name).data) (h2 : '\n' ∉ typeName.data) (h3 : '\n' ∉ tag.data)
    (h4 : '\n' ∉ comment.data) :
    (specFieldLine name typeName tag comment).data.count '\n' = 1 := by
  have h5 : '\n' ∉ (trimPrefixSlashes comment).data := fun h => h4 (mem_trimPrefixSlashes _ _ h)
  have c1 := List.count_eq_zero_of_not_mem h1
  have c2 := List.count_eq_zero_of_not_mem h2
  have c3 := List.count_eq_zero_of_not_mem h3
  have c5 := List.count_eq_zero_of_not_mem h5
  have e0 : "".data.count '\n' = 0 := by decide
  have e1 : "\t".data.count '\n' = 0 := by decide
  have e2 : " ".data.count '\n' = 0 := by decide
  have e3 : "//".data.count '\n' = 0 := by decide
  have e4 : "\n".data.count '\n' = 1 := by decide
  unfold specFieldLine normalizedComment
  by_cases hc : comment = "" <;> by_cases hn : name = "" <;>
    simp only [hc, hn, if_true, if_false, String.data_append, List.count_append,
      c1, c2, c3, c5, e0, e1, e2, e3, e4]

/-! ## Claims on field lines and comments -/

/-- C13 (comment marker is optional): for every field name, tag, type, indent
and every non-empty comment text `c` that does not begin with `//`,
`writeProperty` writes for the comment `//` + `c` what it writes for the comment
`c`, and (at indent 1) the line is a tab, the capitalized name and a space if
the name is not empty, the type name, a space, the tag, a space, the comment
part `//` + `c`, and a newline. -/
theorem comment_marker_optional (w name tag c : String) (tp : SpecType) (indent : Nat)
    (hne : c ≠ "") (hpre : ¬ "//".data <+: c.data) :
    writeProperty w name tag ("//" ++ c) tp indent = writeProperty w name tag c tp indent ∧
    writeProperty w name tag c tp 1 =
      (w ++ ("\t" ++ (if name = "" then "" else stringsTitle name ++ " ") ++ tp.Name ++ " " ++
        tag ++ (" " ++ ("//" ++ c)) ++ "\n"), none) ∧
    writeProperty w name tag ("//" ++ c) tp 1 =
      (w ++ ("\t" ++ (if name = "" then "" else stringsTitle name ++ " ") ++ tp.Name ++ " " ++
        tag ++ (" " ++ ("//" ++ c)) ++ "\n"), none) := by
  have h1 : ("//" ++ c).length > 0 := by
    have h0 : "//".length = 2 := by decide
    rw [String.length_append, h0]
    omega
  have h2 : c.length > 0 := (length_pos_iff c).mpr hne
  have h3 : "//" ++ c ≠ "" := (length_pos_iff _).mp h1
  refine ⟨?_, ?_, ?_⟩
  · unfold writeProperty
    simp only [h1, h2, if_true, trimPrefixSlashes_append,
      trimPrefixSlashes_of_not_prefix c hpre]
  · rw [writeProperty_eq_specFieldLine]
    simp only [specFieldLine, normalizedComment, hne, if_false,
      trimPrefixSlashes_of_not_prefix c hpre]
  · rw [writeProperty_eq_specFieldLine]
    simp only [specFieldLine, normalizedComment, h3, if_false, trimPrefixSlashes_append]

theorem comment_marker_optional_witness :
    writeProperty "" "id" "`json:\"id\"`" ("//" ++ " user id") (.PrimitiveType "int") 1 =
      writeProperty "" "id" "`json:\"id\"`" " user id" (.PrimitiveType "int") 1 ∧
    writeProperty "" "id" "`json:\"id\"`" " user id" (.PrimitiveType "int") 1 =
      ("" ++ ("\t" ++ (if "id" = "" then "" else stringsTitle "id" ++ " ") ++ "int" ++ " " ++
        "`json:\"id\"`" ++ (" " ++ ("//" ++ " user id")) ++ "\n"), none) ∧
    writeProperty "" "id" "`json:\"id\"`" ("//" ++ " user id") (.PrimitiveType "int") 1 =
      ("" ++ ("\t" ++ (if "id" = "" then "" else stringsTitle "id" ++ " ") ++ "int" ++ " " ++
        "`json:\"id\"`" ++ (" " ++ ("//" ++ " user id")) ++ "\n"), none) :=
  comment_marker_optional "" "id" "`json:\"id\"`" " user id" (.PrimitiveType "int") 1
    (by decide) (by decide)

/-- C14, as stated, fails: for the comment `//// note`, which begins with two
markers, `writeProperty` renders the comment `//// note` with both markers,
whereas stripping all leading markers and putting one in front gives
`// note`. -/
theorem comment_markers_counterexample :
    writeProperty "" "id" "`json:\"id\"`" "//// note" (.PrimitiveType "int") 1 =
      ("\tId int `json:\"id\"` //// note\n", none) ∧
    normalizedComment "//// note" = "//// note" ∧
    specSingleMarker "//// note" = "// note" ∧
    normalizedComment "//// note" ≠ specSingleMarker "//// note" := by
  refine ⟨by decide, by decide, by decide, by decide⟩

/-- C14 amended: for every non-empty field comment, the comment that
`writeProperty` renders is `//` followed by the input with one leading `//`
stripped if there is one: it is the input itself when the input begins with
`//`, and `//` followed by the input otherwise; so the rendered comment always
begins with `//`, and an input that begins with several markers keeps them
all. -/
theorem comment_one_marker_stripped (w name tag comment : String) (tp : SpecType)
    (hne : comment ≠ "") :
    writeProperty w name tag comment tp 1 =
      (w ++ ("\t" ++ (if name = "" then "" else stringsTitle name ++ " ") ++ tp.Name ++ " " ++
        tag ++ (" " ++ normalizedComment comment) ++ "\n"), none) ∧
    normalizedComment comment = "//" ++ trimPrefixSlashes comment ∧
    ("//".data <+: comment.data → normalizedComment comment = comment) ∧
    (¬ "//".data <+: comment.data → normalizedComment comment = "//" ++ comment) ∧
    "//".data <+: (normalizedComment comment).data := by
  refine ⟨?_, rfl, ?_, ?_, ?_⟩
  · rw [writeProperty_eq_specFieldLine]
    simp only [specFieldLine, hne, if_false]
  · intro h
    exact trimPrefixSlashes_of_prefix comment h
  · intro h
    simp only [normalizedComment, trimPrefixSlashes_of_not_prefix comment h]
  · exact ⟨(trimPrefixSlashes comment).data, by simp [normalizedComment]⟩

theorem comment_one_marker_stripped_witness :
    writeProperty "" "id" "" "//// note" (.PrimitiveType "int") 1 =
      ("" ++ ("\t" ++ (if "id" = "" then "" else stringsTitle "id" ++ " ") ++ "int" ++ " " ++
        "" ++ (" " ++ normalizedComment "//// note") ++ "\n"), none) ∧
    normalizedComment "//// note" = "//// note" ∧
    normalizedComment "note" = "//" ++ "note" :=
  have h := comment_one_marker_stripped "" "id" "" "//// note" (.PrimitiveType "int") (by decide)
  have h2 := comment_one_marker_stripped "" "id" "" "note" (.PrimitiveType "int") (by decide)
  ⟨h.1, h.2.2.1 (by decide), h2.2.2.2.1 (by decide)⟩

/-- C15 (field line format): for every field, `writeProperty` at indent 1
appends to the writer exactly the field line of the specification: a tab, the
capitalized field name and a space only if the field name is not empty, the
name of the field's type, a space, the raw tag, a space and the normalized
comment only if the comment is not empty, and a newline; the line has exactly
one newline, its last character, when the capitalized name, the type name, the
tag and the comment contain none; and two types with the same name give the
same line, so the fields of a nested struct are never written. -/
theorem field_line_format (w name tag comment : String) (tp : SpecType) :
    writeProperty w name tag comment tp 1 = (w ++ specFieldLine name tp.Name tag comment, none) ∧
    specFieldLine "" tp.Name tag "" = "\t" ++ "" ++ tp.Name ++ " " ++ tag ++ "" ++ "\n" ∧
    (name ≠ "" → specFieldLine name tp.Name tag "" =
      "\t" ++ (stringsTitle name ++ " ") ++ tp.Name ++ " " ++ tag ++ "" ++ "\n") ∧
    (comment ≠ "" → specFieldLine "" tp.Name tag comment =
      "\t" ++ "" ++ tp.Name ++ " " ++ tag ++ (" " ++ normalizedComment comment) ++ "\n") ∧
    (name ≠ "" → comment ≠ "" → specFieldLine name tp.Name tag comment =
      "\t" ++ (stringsTitle name ++ " ") ++ tp.Name ++ " " ++ tag ++
        (" " ++ normalizedComment comment) ++ "\n") ∧
    ('\n' ∉ (stringsTitle name).data → '\n' ∉ tp.Name.data → '\n' ∉ tag.data →
      '\n' ∉ comment.data →
      (specFieldLine name tp.Name tag comment).data.count '\n' = 1 ∧
      (specFieldLine name tp.Name tag comment).data.getLast? = some '\n') ∧
    (∀ tp2 : SpecType, tp2.Name = tp.Name →
      writeProperty w name tag comment tp2 1 = writeProperty w name tag comment tp 1) := by
  refine ⟨writeProperty_eq_specFieldLine w name tag comment tp, ?_, ?_, ?_, ?_, ?_, ?_⟩
  · simp only [specFieldLine, if_true]
  · intro hn
    simp only [specFieldLine, hn, if_true, if_false]
  · intro hc
    simp only [specFieldLine, hc, if_true, if_false]
  · intro hn hc
    simp only [specFieldLine, hn, hc, if_false]
  · intro h1 h2 h3 h4
    refine ⟨specFieldLine_count_newline name tp.Name tag comment h1 h2 h3 h4, ?_⟩
    unfold specFieldLine
    rw [String.data_append]
    exact List.getLast?_concat _
  · intro tp2 h
    rw [writeProperty_eq_specFieldLine, writeProperty_eq_specFieldLine, h]

theorem field_line_format_witness :
    specFieldLine "owner" userRef.Name "`json:\"owner\"`" "" =
      "\t" ++ (stringsTitle "owner" ++ " ") ++ userRef.Name ++ " " ++ "`json:\"owner\"`" ++ ""
        ++ "\n" ∧
    specFieldLine "" userRef.Name "" "// the owner" =
      "\t" ++ "" ++ userRef.Name ++ " " ++ "" ++ (" " ++ normalizedComment "// the owner")
        ++ "\n" ∧
    (specFieldLine "owner" userRef.Name "`json:\"owner\"`" "// the owner").data.count '\n' = 1 ∧
    writeProperty "" "owner" "`json:\"owner\"`" "" exUser 1 =
      writeProperty "" "owner" "`json:\"owner\"`" "" userRef 1 :=
  ⟨(field_line_format "" "owner" "`json:\"owner\"`" "" userRef).2.2.1 (by decide),
   (field_line_format "" "" "" "// the owner" userRef).2.2.2.1 (by decide),
   ((field_line_format "" "owner" "`json:\"owner\"`" "// the owner" userRef).2.2.2.2.2.1
      (by decide) (by decide) (by decide) (by decide)).1,
   (field_line_format "" "owner" "`json:\"owner\"`" "" userRef).2.2.2.2.2.2 exUser rfl⟩


/-! ## Blocks and their join -/

theorem writeMembersLoop_eq_concatLines (all : GoMap) (members : List Member) :
    ∀ w, writeMembersLoop all members w = (w ++ concatLines (members.map memberLine), none) := by
  induction members with
  | nil => intro w; simp [writeMembersLoop, concatLines]
  | cons m rest ih =>
    intro w
    simp only [writeMembersLoop, writeProperty_eq_specFieldLine, List.map_cons, concatLines]
    rw [ih, String.append_assoc]
    rfl

theorem writeType_eq_specBlock (w : String) (tp : SpecType) (all : GoMap)
    (h : tp.isStruct = true) : writeType w tp all = (w ++ specBlock tp, none) := by
  cases tp <;> simp [SpecType.isStruct] at h
  simp only [writeType, writerMembers, writeMembersLoop_eq_concatLines, specBlock,
    SpecType.Members, SpecType.Name]
  simp [String.append_assoc]

theorem renderedBlocks_eq_specBlock (all : GoMap) (l : List (String × SpecType))
    (h : ∀ e ∈ l, e.2.isStruct = true) :
    renderedBlocks all l = l.map (fun e => specBlock e.2) := by
  unfold renderedBlocks
  apply List.map_congr_left
  intro e he
  rw [writeType_eq_specBlock "" e.2 all (h e he), String.empty_append]

theorem joinBlankLine_append_head (x y : String) (rest : List String) :
    joinBlankLine ((x ++ y) :: rest) = x ++ joinBlankLine (y :: rest) := by
  cases rest with
  | nil => rfl
  | cons c r => simp [joinBlankLine, String.append_assoc]

theorem intercalate_go_eq_joinBlankLine (l : List String) :
    ∀ acc, String.intercalate.go acc "\n\n" l = joinBlankLine (acc :: l) := by
  induction l with
  | nil => intro acc; rfl
  | cons a rest ih =>
    intro acc
    simp only [String.intercalate.go, ih, joinBlankLine]
    rw [joinBlankLine_append_head]

theorem intercalate_eq_joinBlankLine (l : List String) :
    "\n\n".intercalate l = joinBlankLine l := by
  cases l with
  | nil => rfl
  | cons a rest => exact intercalate_go_eq_joinBlankLine rest a

theorem buildTypes_eq_joinBlankLine (order : RangeOrder) (types all : GoMap)
    (hs : ∀ e ∈ types, e.2.isStruct = true) :
    buildTypes order types all =
      (joinBlankLine ((order.enum types).map (fun e => specBlock e.2)), none) := by
  have h1 : ∀ e ∈ order.enum types, e.2.isStruct = true :=
    fun e he => hs e ((mem_enum_iff order types e).mp he)
  unfold buildTypes
  rw [buildTypesLoop_intercalate all _ h1, intercalate_eq_joinBlankLine,
    renderedBlocks_eq_specBlock all _ h1]

theorem resolvedSet_pruned_root (all : GoMap) (fuel : Nat) (rn : String) (rms : List Member)
    (dn : String) (dms : List Member)
    (hroot : mapGet all (searchName rn) = some (.DefineStruct dn dms))
    (hpr : ∀ m ∈ dms, prunedField m.Tp = true) :
    resolvedSet (fuel + 1) (.DefineStruct rn rms) all = some [(rn, .DefineStruct rn rms)] := by
  unfold resolvedSet
  simp only [SpecType.isStruct, if_true, SpecType.Name]
  rw [associatedTypes_struct fuel _ _ all dn dms (by simpa [SpecType.Name] using hroot),
    foldlM_pruned _ dms hpr]
  simp [addSaved, mapSet, mapGet, SpecType.Name]

theorem buildDoc_single_entry (order : RangeOrder) (fuel : Nat) (tp : SpecType) (all : GoMap)
    (hname : tp.Name ≠ "") (hs : tp.isStruct = true)
    (hres : resolvedSet fuel tp all = some [(tp.Name, tp)]) :
    buildDoc order fuel (some tp) all =
      some ("\n\n```golang\n" ++ specBlock tp ++ "\n```\n", none) := by
  rw [buildDoc_of_resolvedSet order fuel tp all _ hname hres,
    buildTypes_eq_joinBlankLine order _ all (by
      intro e he
      rw [List.mem_singleton] at he
      rw [he]
      exact hs),
    enum_singleton]
  rfl

/-! ## Claims on the scenarios and on the join -/

/-- C16 (blank-line join): for every resolved set whose entries are all
structs and every enumeration order, `buildTypes` returns without error the
join of the blocks of the entries in the order of enumeration, where
consecutive blocks are separated by exactly one blank line (`\n\n`) and nothing
stands before the first or after the last block; each block is the header
`type <capitalized name> struct {`, the field lines, and `}`; and there are as
many blocks as entries. -/
theorem blank_line_join (order : RangeOrder) (types all : GoMap)
    (hs : ∀ e ∈ types, e.2.isStruct = true) :
    buildTypes order types all =
      (joinBlankLine ((order.enum types).map (fun e => specBlock e.2)), none) ∧
    ((order.enum types).map (fun e => specBlock e.2)).length = types.length ∧
    (∀ e ∈ types, ∀ w, writeType w e.2 all = (w ++ specBlock e.2, none)) ∧
    (∀ e ∈ types, specBlock e.2 =
      "type " ++ Title e.2.Name ++ " struct \x7b\n" ++ concatLines (e.2.Members.map memberLine)
        ++ "\x7d") ∧
    joinBlankLine [] = "" ∧ (∀ b, joinBlankLine [b] = b) ∧
    (∀ b c rest, joinBlankLine (b :: c :: rest) = b ++ "\n\n" ++ joinBlankLine (c :: rest)) := by
  refine ⟨buildTypes_eq_joinBlankLine order types all hs, ?_, ?_, fun _ _ => rfl, rfl,
    fun _ => rfl, fun _ _ _ => rfl⟩
  · rw [List.length_map]
    exact (order.perm types).length_eq
  · intro e he w
    exact writeType_eq_specBlock w e.2 all (hs e he)

theorem blank_line_join_witness :
    buildTypes reverseOrder [("Wrapper", exWrapper), ("User", exUser)] exampleRegistry =
      (joinBlankLine ((reverseOrder.enum [("Wrapper", exWrapper), ("User", exUser)]).map
        (fun e => specBlock e.2)), none) ∧
    ((reverseOrder.enum [("Wrapper", exWrapper), ("User", exUser)]).map
        (fun e => specBlock e.2)).length = 2 :=
  have h := blank_line_join reverseOrder [("Wrapper", exWrapper), ("User", exUser)]
    exampleRegistry (by intro e he; simp at he; rcases he with rfl | rfl <;> rfl)
  ⟨h.1, h.2.1⟩

/-- C11 (single-struct scenario): for every struct root with a non-empty name
that is its own registry definition and whose fields are all primitive and carry
no comment, `buildDoc` returns without error (within any positive recursion
bound) exactly the fence, the header `type <capitalized root name> struct {`,
one line per field in declaration order, each a tab, the capitalized field name
and a space (if the field has a name), the type name, a space, the tag and a
newline, the closing brace, and the closing fence; for `User{ID int; Name
string}` with its tags this is the single block `User` with two field lines and
no comment. -/
theorem single_struct_scenario (order : RangeOrder) (all : GoMap) (fuel : Nat) (n : String)
    (ms : List Member) (hname : n ≠ "")
    (hreg : mapGet all (searchName n) = some (.DefineStruct n ms))
    (hprim : ∀ m ∈ ms, m.Tp.isPrimitive = true) (hnc : ∀ m ∈ ms, m.Comment = "") :
    buildDoc order (fuel + 1) (some (.DefineStruct n ms)) all =
      some ("\n\n```golang\n" ++
        ("type " ++ Title n ++ " struct \x7b\n" ++
          concatLines (ms.map (fun m =>
            "\t" ++ (if m.Name = "" then "" else stringsTitle m.Name ++ " ") ++ m.Tp.Name ++ " "
              ++ m.Tag ++ "\n")) ++
          "\x7d") ++ "\n```\n", none) ∧
    (∀ m ∈ ms, m.Name ≠ "" →
      "\t" ++ (if m.Name = "" then "" else stringsTitle m.Name ++ " ") ++ m.Tp.Name ++ " "
          ++ m.Tag ++ "\n" =
        "\t" ++ stringsTitle m.Name ++ " " ++ m.Tp.Name ++ " " ++ m.Tag ++ "\n") ∧
    buildDoc order (fuel + 1) (some exUser) [("User", exUser)] =
      some ("\n\n```golang\ntype User struct \x7b\n\tID int `json:\"id\"`\n\tName string `json:\"name\"`\n\x7d\n```\n", none) := by
  have key : ∀ (all : GoMap) (n : String) (ms : List Member), n ≠ "" →
      mapGet all (searchName n) = some (.DefineStruct n ms) →
      (∀ m ∈ ms, m.Tp.isPrimitive = true) →
      buildDoc order (fuel + 1) (some (.DefineStruct n ms)) all =
        some ("\n\n```golang\n" ++ specBlock (.DefineStruct n ms) ++ "\n```\n", none) := by
    intro all n ms hname hreg hprim
    exact buildDoc_single_entry order (fuel + 1) (.DefineStruct n ms) all hname rfl
      (resolvedSet_pruned_root all fuel n ms n ms hreg
        (fun m hm => prunedField_of_isPrimitive _ (hprim m hm)))
  refine ⟨?_, ?_, ?_⟩
  · rw [key all n ms hname hreg hprim]
    have hl : ms.map memberLine = ms.map (fun m =>
        "\t" ++ (if m.Name = "" then "" else stringsTitle m.Name ++ " ") ++ m.Tp.Name ++ " "
          ++ m.Tag ++ "\n") := by
      apply List.map_congr_left
      intro m hm
      have hc : m.GetComment = "" := by
        unfold Member.GetComment
        rw [hnc m hm]
        rfl
      simp only [memberLine, specFieldLine, hc, if_true, String.append_empty]
    simp only [specBlock, SpecType.Members, SpecType.Name, hl]
  · intro m _ hn
    simp only [hn, if_false, String.append_assoc]
  · have h := key [("User", exUser)] "User" exUser.Members (by decide) rfl
      (by intro m hm; simp [exUser, SpecType.Members] at hm; rcases hm with rfl | rfl <;> rfl)
    exact h.trans rfl

theorem single_struct_scenario_witness :
    buildDoc reverseOrder (0 + 1) (some (.DefineStruct "User" exUser.Members)) exampleRegistry =
      some ("\n\n```golang\n" ++
        ("type " ++ Title "User" ++ " struct \x7b\n" ++
          concatLines (exUser.Members.map (fun m =>
            "\t" ++ (if m.Name = "" then "" else stringsTitle m.Name ++ " ") ++ m.Tp.Name ++ " "
              ++ m.Tag ++ "\n")) ++
          "\x7d") ++ "\n```\n", none) :=
  (single_struct_scenario reverseOrder exampleRegistry 0 "User" exUser.Members (by decide) rfl
    (by intro m hm; simp [exUser, SpecType.Members] at hm; rcases hm with rfl | rfl <;> rfl)
    (by intro m hm; simp [exUser, SpecType.Members] at hm; rcases hm with rfl | rfl <;> rfl)).1

/-! ## Resolution: the calls of `associatedTypes` -/

theorem visitMember_eq_target (recur : SpecType → GoMap → Option GoMap) (tps : GoMap)
    (item : Member) :
    visitMember recur tps item =
      match memberTarget item with
      | some t => recur t tps
      | none => some tps := by
  unfold visitMember memberTarget
  split <;> try rfl
  · split <;> rfl
  · split <;> rfl

theorem foldlM_visitMember_eq (recur : SpecType → GoMap → Option GoMap) (ms : List Member) :
    ∀ tps, ms.foldlM (visitMember recur) tps =
      (ms.filterMap memberTarget).foldlM (fun t x => recur x t) tps := by
  induction ms with
  | nil => intro tps; rfl
  | cons m rest ih =>
    intro tps
    rw [List.foldlM_cons, visitMember_eq_target]
    cases hm : memberTarget m with
    | none =>
      rw [List.filterMap_cons_none hm]
      exact ih tps
    | some t =>
      rw [List.filterMap_cons_some hm, List.foldlM_cons]
      dsimp only
      cases recur t tps with
      | none => rfl
      | some t1 => exact ih t1

/-- One call of `associatedTypes`: the insertion step, then the recursive calls
on the call targets of the name, in order. -/
theorem associatedTypes_succ_eq (fuel : Nat) (tp : SpecType) (tps all : GoMap) :
    associatedTypes (fuel + 1) tp tps all =
      (callTargets all tp.Name).foldlM (fun t x => associatedTypes fuel x t all)
        (addSaved tps tp.Name (mapGet all (searchName tp.Name))) := by
  unfold callTargets
  cases hs : mapGet all (searchName tp.Name) with
  | none =>
    rw [associatedTypes_other fuel tp tps all (by simp [hs]) (by simp [hs]), hs]
    rfl
  | some d =>
    cases d with
    | PointerType n inner =>
      rw [associatedTypes_pointer fuel tp tps all n inner hs]
      simp only [defTargets, List.foldlM_cons, List.foldlM_nil]
      cases associatedTypes fuel inner _ all <;> rfl
    | DefineStruct n members =>
      rw [associatedTypes_struct fuel tp tps all n members hs, foldlM_visitMember_eq]
      rfl
    | PrimitiveType n =>
      rw [associatedTypes_other fuel tp tps all (by simp [hs]) (by simp [hs]), hs]
      rfl
    | MapType n k v =>
      rw [associatedTypes_other fuel tp tps all (by simp [hs]) (by simp [hs]), hs]
      rfl
    | ArrayType n v =>
      rw [associatedTypes_other fuel tp tps all (by simp [hs]) (by simp [hs]), hs]
      rfl
    | InterfaceType n =>
      rw [associatedTypes_other fuel tp tps all (by simp [hs]) (by simp [hs]), hs]
      rfl

/-- The call depends on its type argument through the name only. -/
theorem associatedTypes_name_only (all : GoMap) (fuel : Nat) (tp1 tp2 : SpecType) (tps : GoMap)
    (h : tp1.Name = tp2.Name) :
    associatedTypes fuel tp1 tps all = associatedTypes fuel tp2 tps all := by
  cases fuel with
  | zero => rfl
  | succ fuel => rw [associatedTypes_succ_eq, associatedTypes_succ_eq, h]

theorem addSaved_cons (n name : String) (r : SpecType) (rest : GoMap) (saved : Option SpecType) :
    addSaved ((n, r) :: rest) name saved =
      (n, r) :: (if n = name then rest else addSaved rest name saved) := by
  unfold addSaved
  by_cases hn : n = name
  · cases saved <;> simp [mapGet, hn]
  · cases saved with
    | none => simp [hn]
    | some d =>
      cases hg : mapGet rest name <;> simp [mapGet, mapSet, hn, hg]

theorem foldlM_root_value (n : String) (r1 r2 : SpecType)
    (f : GoMap → SpecType → Option GoMap)
    (hstep : ∀ x rest res, f ((n, r1) :: rest) x = some res →
      ∃ rest', res = (n, r1) :: rest' ∧ f ((n, r2) :: rest) x = some ((n, r2) :: rest'))
    (l : List SpecType) :
    ∀ rest res, l.foldlM f ((n, r1) :: rest) = some res →
      ∃ rest', res = (n, r1) :: rest' ∧ l.foldlM f ((n, r2) :: rest) = some ((n, r2) :: rest') := by
  induction l with
  | nil =>
    intro rest res h
    simp at h
    exact ⟨rest, h.symm, rfl⟩
  | cons x xs ih =>
    intro rest res h
    simp only [List.foldlM_cons, Option.bind_eq_bind, Option.bind_eq_some] at h
    obtain ⟨t1, h1, h2⟩ := h
    obtain ⟨rest1, e1, g1⟩ := hstep x rest t1 h1
    subst e1
    obtain ⟨rest2, e2, g2⟩ := ih rest1 res h2
    exact ⟨rest2, e2, by simp only [List.foldlM_cons, g1, Option.bind_eq_bind, Option.some_bind, g2]⟩

/-- The value bound to the first key does not influence a call: replacing it
replaces it in the result and changes nothing else. -/
theorem associatedTypes_root_value (all : GoMap) (n : String) (r1 r2 : SpecType) :
    ∀ fuel tp rest res, associatedTypes fuel tp ((n, r1) :: rest) all = some res →
      ∃ rest', res = (n, r1) :: rest' ∧
        associatedTypes fuel tp ((n, r2) :: rest) all = some ((n, r2) :: rest') := by
  intro fuel
  induction fuel with
  | zero => intro tp rest res h; cases h
  | succ fuel ih =>
    intro tp rest res h
    rw [associatedTypes_succ_eq, addSaved_cons] at h
    rw [associatedTypes_succ_eq, addSaved_cons]
    exact foldlM_root_value n r1 r2 _ (fun x rest res hx => ih x rest res hx) _ _ _ h

theorem mapGet_of_mem (m : GoMap) (h : (mapKeys m).Nodup) (k : String) (v : SpecType)
    (hm : (k, v) ∈ m) : mapGet m k = some v := by
  induction m with
  | nil => cases hm
  | cons e rest ih =>
    obtain ⟨k0, v0⟩ := e
    simp only [mapKeys, List.map_cons, List.nodup_cons] at h
    rcases List.mem_cons.mp hm with heq | hr
    · cases heq
      simp [mapGet]
    · have hk : k0 ≠ k := by
        intro hk
        subst hk
        exact h.1 (List.mem_map_of_mem Prod.fst hr)
      simp only [mapGet, hk, if_false]
      exact ih h.2 hr

theorem resolvedSet_extends (fuel : Nat) (route : SpecType) (all tps : GoMap)
    (h : resolvedSet fuel route all = some tps) : Extends all [(route.Name, route)] tps := by
  unfold resolvedSet at h
  by_cases hs : route.isStruct = true
  · simp only [hs, if_true] at h
    exact associatedTypes_extends all fuel route _ tps h
  · simp only [hs, Bool.false_eq_true, if_false] at h
    cases h
    exact Extends.refl all _

theorem resolvedSet_root (fuel : Nat) (route : SpecType) (all tps : GoMap)
    (h : resolvedSet fuel route all = some tps) : mapGet tps route.Name = some route :=
  (resolvedSet_extends fuel route all tps h).1 route.Name route (by simp [mapGet])

theorem resolvedSet_all_struct (fuel : Nat) (route : SpecType) (all tps : GoMap)
    (hroute : route.isStruct = true) (hall : ∀ e ∈ all, e.2.isStruct = true)
    (h : resolvedSet fuel route all = some tps) : ∀ e ∈ tps, e.2.isStruct = true := by
  intro e he
  have hg := mapGet_of_mem tps (resolvedSet_nodup fuel route all tps h) e.1 e.2 he
  rcases (resolvedSet_extends fuel route all tps h).2 e.1 e.2 hg with h0 | h0
  · by_cases hk : route.Name = e.1
    · simp only [mapGet, hk, if_true, Option.some.injEq] at h0
      rw [← h0]
      exact hroute
    · simp [mapGet, hk] at h0
  · exact hall (searchName e.1, e.2) (mapGet_mem all (searchName e.1) e.2 h0)


/-! ## Claims on the resolved set -/

/-- C12 (array-of-struct scenario): for every registry that declares under
`Wrapper` a struct with the single field `Items []User` (an array whose element
is a non-primitive type named `User`) and under `User` a struct with only
primitive fields, resolving a struct root named `Wrapper` terminates (within
any recursion bound of at least 2) with the resolved set whose entries are
exactly `Wrapper`, bound to the root, and `User`, bound to the registry's
definition: there is no entry for a primitive. -/
theorem array_of_struct_scenario (all : GoMap) (fuel : Nat) (rms : List Member)
    (wn itemName arrName itemTag itemComment : String) (elem : SpecType)
    (un : String) (ums : List Member)
    (hW : mapGet all "Wrapper" =
      some (.DefineStruct wn [.mk itemName (.ArrayType arrName elem) itemTag itemComment]))
    (helem : elem.Name = "User") (hnp : elem.isPrimitive = false)
    (hU : mapGet all "User" = some (.DefineStruct un ums))
    (hprim : ∀ m ∈ ums, m.Tp.isPrimitive = true) :
    resolvedSet (fuel + 2) (.DefineStruct "Wrapper" rms) all =
      some [("Wrapper", .DefineStruct "Wrapper" rms), ("User", .DefineStruct un ums)] ∧
    ∀ tps, resolvedSet (fuel + 2) (.DefineStruct "Wrapper" rms) all = some tps →
      mapKeys tps = ["Wrapper", "User"] ∧ mapGet tps "User" = mapGet all "User" := by
  have hres : resolvedSet (fuel + 2) (.DefineStruct "Wrapper" rms) all =
      some [("Wrapper", .DefineStruct "Wrapper" rms), ("User", .DefineStruct un ums)] := by
    have s1 : searchName "Wrapper" = "Wrapper" := by decide
    have s2 : searchName "User" = "User" := by decide
    have hne : ("Wrapper" = "User") = False := by decide
    unfold resolvedSet
    simp only [SpecType.isStruct, if_true, SpecType.Name]
    rw [associatedTypes_struct (fuel + 1) _ _ all wn _ (by simpa [SpecType.Name, s1] using hW)]
    simp only [List.foldlM_cons, List.foldlM_nil, visitMember, Member.Tp, hnp,
      Bool.false_eq_true, if_false]
    rw [associatedTypes_struct fuel elem _ all un ums (by rw [helem, s2]; exact hU),
      foldlM_pruned _ ums (fun m hm => prunedField_of_isPrimitive _ (hprim m hm))]
    rw [helem]
    simp [addSaved, mapSet, mapGet, SpecType.Name, hne]
  refine ⟨hres, ?_⟩
  intro tps h
  rw [hres] at h
  cases h
  refine ⟨rfl, ?_⟩
  rw [hU]
  have hne : ("Wrapper" = "User") = False := by decide
  simp [mapGet, hne]

theorem array_of_struct_scenario_witness :
    resolvedSet (0 + 2) (.DefineStruct "Wrapper" []) exampleRegistry =
      some [("Wrapper", .DefineStruct "Wrapper" []), ("User", .DefineStruct "User" exUser.Members)] :=
  (array_of_struct_scenario exampleRegistry 0 [] "Wrapper" "Items" "[]User" "" "" userRef
    "User" exUser.Members rfl rfl rfl rfl
    (by intro m hm; simp [exUser, SpecType.Members] at hm; rcases hm with rfl | rfl <;> rfl)).1

/-- C17 (resolved-set invariant): every terminating call of `associatedTypes`
only adds entries: each entry present before the call is present with the same
value afterwards, and each entry it adds under a key `k` has as value the
registry's definition under `k` with one leading `*` stripped, so a key is
added only if its stripped name is a key of the registry; in `buildDoc` the
root's name therefore stays bound to the route's own type. -/
theorem resolved_set_invariant (all : GoMap) (fuel : Nat) (tp : SpecType) (tps res : GoMap)
    (h : associatedTypes fuel tp tps all = some res) :
    (∀ k v, mapGet tps k = some v → mapGet res k = some v) ∧
    (∀ k v, mapGet tps k = none → mapGet res k = some v →
      mapGet all (searchName k) = some v) ∧
    (∀ k, mapGet tps k = none → mapGet all (searchName k) = none → mapGet res k = none) ∧
    (∀ fuel2 route set, resolvedSet fuel2 route all = some set →
      mapGet set route.Name = some route) := by
  have hext := associatedTypes_extends all fuel tp tps res h
  refine ⟨hext.1, ?_, ?_, ?_⟩
  · intro k v hn hr
    rcases hext.2 k v hr with h0 | h0
    · rw [hn] at h0; cases h0
    · exact h0
  · intro k hn hreg
    cases hr : mapGet res k with
    | none => rfl
    | some v =>
      rcases hext.2 k v hr with h0 | h0
      · rw [hn] at h0; cases h0
      · rw [hreg] at h0; cases h0
  · intro fuel2 route set hs
    exact resolvedSet_root fuel2 route all set hs

theorem resolved_set_invariant_witness :
    (∀ k v, mapGet [("Pair", exPair)] k = some v →
      mapGet [("Pair", exPair), ("User", exUser), ("*User", exUser)] k = some v) ∧
    (∀ k v, mapGet [("Pair", exPair)] k = none →
      mapGet [("Pair", exPair), ("User", exUser), ("*User", exUser)] k = some v →
      mapGet pairRegistry (searchName k) = some v) :=
  have h := resolved_set_invariant pairRegistry 2 exPair [("Pair", exPair)]
    [("Pair", exPair), ("User", exUser), ("*User", exUser)] rfl
  ⟨h.1, h.2.1⟩

/-- C19 (rendering cannot fail for struct-only input): if the root is a struct
with a non-empty name, every value of the registry is a struct, and resolution
terminates, then `buildDoc` returns no error and a text that begins with the
opening fence and ends with the closing fence. -/
theorem struct_only_rendering (order : RangeOrder) (fuel : Nat) (all : GoMap) (n : String)
    (ms : List Member) (tps : GoMap) (hname : n ≠ "")
    (hall : ∀ e ∈ all, e.2.isStruct = true)
    (hres : resolvedSet fuel (.DefineStruct n ms) all = some tps) :
    ∃ text value, buildDoc order fuel (some (.DefineStruct n ms)) all = some (text, none) ∧
      text = "\n\n```golang\n" ++ value ++ "\n```\n" ∧
      "\n\n```golang\n".data <+: text.data ∧ "\n```\n".data <:+ text.data := by
  have hs := resolvedSet_all_struct fuel (.DefineStruct n ms) all tps rfl hall hres
  have hb := buildTypes_eq_joinBlankLine order tps all hs
  refine ⟨_, joinBlankLine ((order.enum tps).map (fun e => specBlock e.2)), ?_, rfl, ?_, ?_⟩
  · rw [buildDoc_of_resolvedSet order fuel _ all tps (by simpa [SpecType.Name] using hname) hres,
      hb]
  · exact ⟨(joinBlankLine ((order.enum tps).map (fun e => specBlock e.2)) ++ "\n```\n").data,
      by simp [String.data_append]⟩
  · exact ⟨("\n\n```golang\n" ++
      joinBlankLine ((order.enum tps).map (fun e => specBlock e.2))).data,
      by simp [String.data_append]⟩

theorem struct_only_rendering_witness :
    ∃ text value, buildDoc reverseOrder 2 (some (.DefineStruct "Pair" exPair.Members))
        pairRegistry = some (text, none) ∧
      text = "\n\n```golang\n" ++ value ++ "\n```\n" ∧
      "\n\n```golang\n".data <+: text.data ∧ "\n```\n".data <:+ text.data :=
  struct_only_rendering reverseOrder 2 pairRegistry "Pair" exPair.Members
    [("Pair", exPair), ("User", exUser), ("*User", exUser)] (by decide)
    (by intro e he; simp [pairRegistry] at he; rcases he with rfl | rfl <;> rfl) rfl

/-- C20 (dependencies come from the registry): a call of `associatedTypes`
depends on its type argument through the name only, so the fields carried by
the root value are never traversed; for two struct roots with the same name the
resolved sets differ in the value bound to the root's name only, the entries
added being the same; and if the registry has no definition under the root's
name (with one leading `*` stripped, which a struct name does not have), the
resolved set is exactly `{root name -> root}` whatever fields the root has. -/
theorem dependencies_from_registry (all : GoMap) :
    (∀ fuel tp1 tp2 tps, tp1.Name = tp2.Name →
      associatedTypes fuel tp1 tps all = associatedTypes fuel tp2 tps all) ∧
    (∀ fuel n ms1 ms2 tps,
      resolvedSet fuel (.DefineStruct n ms1) all = some tps →
      ∃ added, tps = (n, .DefineStruct n ms1) :: added ∧
        resolvedSet fuel (.DefineStruct n ms2) all = some ((n, .DefineStruct n ms2) :: added)) ∧
    (∀ fuel n ms, mapGet all (searchName n) = none →
      resolvedSet (fuel + 1) (.DefineStruct n ms) all = some [(n, .DefineStruct n ms)]) ∧
    (∀ fuel n ms, searchName n = n → mapGet all n = none →
      resolvedSet (fuel + 1) (.DefineStruct n ms) all = some [(n, .DefineStruct n ms)]) := by
  have h3 : ∀ fuel n ms, mapGet all (searchName n) = none →
      resolvedSet (fuel + 1) (.DefineStruct n ms) all = some [(n, .DefineStruct n ms)] := by
    intro fuel n ms hreg
    unfold resolvedSet
    simp only [SpecType.isStruct, if_true, SpecType.Name]
    rw [associatedTypes_other fuel _ _ all (by simp [SpecType.Name, hreg])
      (by simp [SpecType.Name, hreg])]
    simp [SpecType.Name, hreg, addSaved, mapSet]
  refine ⟨fun fuel tp1 tp2 tps h => associatedTypes_name_only all fuel tp1 tp2 tps h, ?_, h3, ?_⟩
  · intro fuel n ms1 ms2 tps h
    unfold resolvedSet at h ⊢
    simp only [SpecType.isStruct, if_true, SpecType.Name, mapSet] at h ⊢
    obtain ⟨rest, e1, e2⟩ := associatedTypes_root_value all n (.DefineStruct n ms1)
      (.DefineStruct n ms2) fuel _ [] tps h
    refine ⟨rest, e1, ?_⟩
    rw [associatedTypes_name_only all fuel (.DefineStruct n ms2) (.DefineStruct n ms1) _ rfl]
    exact e2
  · intro fuel n ms hs hreg
    exact h3 fuel n ms (by rw [hs]; exact hreg)

theorem dependencies_from_registry_witness :
    (∃ added, [("Pair", exPair), ("User", exUser), ("*User", exUser)] =
        ("Pair", .DefineStruct "Pair" exPair.Members) :: added ∧
      resolvedSet 2 (.DefineStruct "Pair" []) pairRegistry =
        some (("Pair", .DefineStruct "Pair" []) :: added)) ∧
    resolvedSet (0 + 1) (.DefineStruct "Order" exPair.Members) pairRegistry =
      some [("Order", .DefineStruct "Order" exPair.Members)] :=
  ⟨(dependencies_from_registry pairRegistry).2.1 2 "Pair" exPair.Members [] _ rfl,
   (dependencies_from_registry pairRegistry).2.2.2 0 "Order" exPair.Members (by decide) rfl⟩


/-! ## Termination on acyclic registries -/

theorem foldlM_some {α : Type} (f : GoMap → α → Option GoMap) (l : List α)
    (h : ∀ x ∈ l, ∀ t, ∃ t', f t x = some t') : ∀ t, ∃ t', l.foldlM f t = some t' := by
  induction l with
  | nil => intro t; exact ⟨t, rfl⟩
  | cons x rest ih =>
    intro t
    obtain ⟨t1, h1⟩ := h x (List.mem_cons_self _ _) t
    obtain ⟨t2, h2⟩ := ih (fun y hy => h y (List.mem_cons_of_mem _ hy)) t1
    exact ⟨t2, by simp only [List.foldlM_cons, h1, Option.bind_eq_bind, Option.some_bind, h2]⟩

theorem TerminatesWithin.mono {all : GoMap} {f1 f2 : Nat} {a : String}
    (h : TerminatesWithin all f1 a) (hle : f1 ≤ f2) : TerminatesWithin all f2 a := by
  intro tp hn tps
  obtain ⟨res, hr⟩ := h tp hn tps
  exact ⟨res, associatedTypes_mono all tp tps res f1 f2 hle hr⟩

theorem uniform_bound (all : GoMap) (l : List SpecType)
    (h : ∀ t ∈ l, ∃ f, TerminatesWithin all f t.Name) :
    ∃ F, ∀ t ∈ l, TerminatesWithin all F t.Name := by
  induction l with
  | nil => exact ⟨0, fun t ht => by cases ht⟩
  | cons x rest ih =>
    obtain ⟨f1, h1⟩ := h x (List.mem_cons_self _ _)
    obtain ⟨f2, h2⟩ := ih (fun t ht => h t (List.mem_cons_of_mem _ ht))
    refine ⟨max f1 f2, ?_⟩
    intro t ht
    rcases List.mem_cons.mp ht with rfl | hr
    · exact h1.mono (le_max_left _ _)
    · exact (h2 t hr).mono (le_max_right _ _)

/-- A call returns when all the calls it makes return. -/
theorem terminates_step (all : GoMap) (a : String)
    (h : ∀ t ∈ callTargets all a, ∃ f, TerminatesWithin all f t.Name) :
    ∃ f, TerminatesWithin all f a := by
  obtain ⟨F, hF⟩ := uniform_bound all _ h
  refine ⟨F + 1, ?_⟩
  intro tp hn tps
  rw [associatedTypes_succ_eq, hn]
  exact foldlM_some _ _ (fun t ht tps1 => hF t ht t rfl tps1) _

theorem follows_mem_targetNames (all : GoMap) (a b : String) (h : Follows all a b) :
    b ∈ targetNames all := by
  obtain ⟨t, ht, hb⟩ := h
  unfold callTargets at ht
  cases hs : mapGet all (searchName a) with
  | none => rw [hs] at ht; cases ht
  | some d =>
    rw [hs] at ht
    exact List.mem_flatMap.mpr ⟨(searchName a, d), mapGet_mem all _ _ hs,
      List.mem_map.mpr ⟨t, ht, hb⟩⟩

/-- Without a reachable cycle of the reference relation, a call on a type named
`a` returns within some recursion bound. -/
theorem terminates_of_acyclic (all : GoMap) (a : String) (hac : AcyclicFrom all a) :
    ∃ f, TerminatesWithin all f a := by
  have hfin : Finite {b : String // b ∈ targetNames all ∧
      Relation.ReflTransGen (Follows all) a b} :=
    Set.Finite.to_subtype ((List.finite_toSet (targetNames all)).subset (fun b hb => hb.1))
  have wf := @Finite.wellFounded_of_trans_of_irrefl _ hfin
    (fun x y : {b : String // b ∈ targetNames all ∧ Relation.ReflTransGen (Follows all) a b} =>
      Relation.TransGen (Follows all) y.1 x.1)
    ⟨fun _ _ _ hxy hyz => hyz.trans hxy⟩ ⟨fun x hx => hac x.1 x.2.2 hx⟩
  have hall : ∀ x : {b : String // b ∈ targetNames all ∧
      Relation.ReflTransGen (Follows all) a b}, ∃ f, TerminatesWithin all f x.1 := by
    intro x
    refine @WellFounded.induction _ _ wf (fun z => ∃ f, TerminatesWithin all f z.1) x ?_
    intro y ih
    apply terminates_step
    intro t ht
    have hf : Follows all y.1 t.Name := ⟨t, ht, rfl⟩
    exact ih ⟨t.Name, follows_mem_targetNames all _ _ hf, y.2.2.tail hf⟩
      (Relation.TransGen.single hf)
  apply terminates_step
  intro t ht
  have hf : Follows all a t.Name := ⟨t, ht, rfl⟩
  exact hall ⟨t.Name, follows_mem_targetNames all _ _ hf,
    Relation.ReflTransGen.single hf⟩

/-- C18 (termination on acyclic registries): if no cycle of the by-name
reference relation that `associatedTypes` follows is reachable from the root's
name (a call on a name looks the name up in the registry with one leading `*`
stripped and calls itself on each struct-typed field, each pointer-typed field,
each non-primitive map value and array element of a struct found there, and on
the inner type of a pointer found there), then within some recursion bound
`associatedTypes` returns on the root for every resolved set, and so do the
resolution of `buildDoc` and `buildDoc` itself. -/
theorem terminates_on_acyclic (all : GoMap) (root : SpecType)
    (hac : AcyclicFrom all root.Name) :
    ∃ fuel, (∀ tps, ∃ res, associatedTypes fuel root tps all = some res) ∧
      (∃ set, resolvedSet fuel root all = some set) ∧
      (∀ order, ∃ out, buildDoc order fuel (some root) all = some out) := by
  obtain ⟨f, hf⟩ := terminates_of_acyclic all root.Name hac
  have h1 : ∀ tps, ∃ res, associatedTypes f root tps all = some res := hf root rfl
  have h2 : ∃ set, resolvedSet f root all = some set := by
    unfold resolvedSet
    by_cases hs : root.isStruct = true
    · simp only [hs, if_true]
      exact h1 _
    · simp only [hs, Bool.false_eq_true, if_false]
      exact ⟨_, rfl⟩
  refine ⟨f, h1, h2, ?_⟩
  intro order
  obtain ⟨set, hset⟩ := h2
  by_cases hname : root.Name = ""
  · exact ⟨_, buildDoc_empty_name order f all root hname⟩
  · rw [buildDoc_of_resolvedSet order f root all set hname hset]
    cases buildTypes order set all with
    | mk v e =>
      cases e with
      | none => exact ⟨_, rfl⟩
      | some err => exact ⟨_, rfl⟩

theorem terminates_on_acyclic_witness :
    ∃ fuel, (∀ tps, ∃ res, associatedTypes fuel exWrapper tps exampleRegistry = some res) ∧
      (∃ set, resolvedSet fuel exWrapper exampleRegistry = some set) ∧
      (∀ order, ∃ out, buildDoc order fuel (some exWrapper) exampleRegistry = some out) :=
  terminates_on_acyclic exampleRegistry exWrapper (by
    have hU : ∀ c, ¬ Follows exampleRegistry "User" c := by
      rintro c ⟨t, ht, _⟩
      have h0 : callTargets exampleRegistry "User" = [] := rfl
      rw [h0] at ht
      cases ht
    have hW : ∀ c, Follows exampleRegistry "Wrapper" c → c = "User" := by
      rintro c ⟨t, ht, hc⟩
      have h0 : callTargets exampleRegistry "Wrapper" = [userRef] := rfl
      rw [h0, List.mem_singleton] at ht
      rw [← hc, ht]
      rfl
    have hUr : ∀ b, Relation.ReflTransGen (Follows exampleRegistry) "User" b → b = "User" := by
      intro b hb
      rcases Relation.ReflTransGen.cases_head hb with h | ⟨c, hc, _⟩
      · exact h.symm
      · exact absurd hc (hU c)
    intro b hb hcyc
    obtain ⟨c, hc, hcb⟩ := Relation.TransGen.head'_iff.mp hcyc
    rcases Relation.ReflTransGen.cases_head hb with h | ⟨d, hd, hdb⟩
    · have h1 : b = "Wrapper" := h.symm
      subst h1
      have h2 := hW c hc
      subst h2
      exact absurd (hUr _ hcb) (by decide)
    · have h2 := hW d hd
      subst h2
      have h3 := hUr b hdb
      subst h3
      exact hU c hc)


end GoctlDocMd
